import Mathlib

/-!
Verification of the TTBL_scraper repository's parsing, pagination,
retry, accumulation and de-duplication logic.

Python strings are modelled as `List Char` (`PyStr`), and the small
string builtins the scripts rely on (`str.strip`, `str.split`,
`str.isupper`, `int(...)`, `str.startswith`) are given executable
models below.  Each script function is then translated into a Lean
definition that follows the Python source line by line; stateful loops
become explicit folds or fuel-indexed recursion, network calls become
environment parameters, and exceptions become `Except`.
-/

/-- Python strings, modelled as lists of characters. -/
abbrev PyStr := List Char

namespace Py

/-- Characters Python's `str.strip()` / `str.split()` treat as whitespace
(ASCII subset, which covers all inputs of interest here). -/
def isSpaceChar (c : Char) : Bool :=
  c = ' ' || c = '\t' || c = '\n' || c = '\r' || c = '\x0b' || c = '\x0c'

/-- Model of Python `str.strip()`: drop whitespace from both ends. -/
def strip (s : PyStr) : PyStr :=
  ((s.dropWhile isSpaceChar).reverse.dropWhile isSpaceChar).reverse

/-- Accumulator-based worker for `str.split()` with no separator:
split on runs of whitespace, producing no empty tokens. -/
def splitWSAux : PyStr → PyStr → List PyStr
  | [], acc => if acc = [] then [] else [acc.reverse]
  | c :: rest, acc =>
      if isSpaceChar c then
        if acc = [] then splitWSAux rest [] else acc.reverse :: splitWSAux rest []
      else splitWSAux rest (c :: acc)

/-- Model of Python `str.split()` (no argument): split on whitespace runs,
dropping empty tokens. -/
def splitWS (s : PyStr) : List PyStr := splitWSAux s []

/-- Model of Python `str.isupper()` (ASCII scope): at least one cased
character, and no lowercase character. -/
def isUpperStr (s : PyStr) : Bool :=
  s.any Char.isAlpha && s.all (fun c => !c.isLower)

/-- Decimal value of a digit list (all characters assumed digits). -/
def digitsVal (s : PyStr) : ℕ :=
  s.foldl (fun a c => 10 * a + (c.toNat - 48)) 0

/-- Model of Python `int(s)` on a string: strip whitespace, allow one
optional sign, then require a nonempty run of ASCII digits; `none`
models the `ValueError` raised otherwise. -/
def parseInt (s : PyStr) : Option ℤ :=
  let t := strip s
  match t with
  | '-' :: ds => if ds ≠ [] ∧ ds.all Char.isDigit then some (-(digitsVal ds : ℤ)) else none
  | '+' :: ds => if ds ≠ [] ∧ ds.all Char.isDigit then some (digitsVal ds : ℤ) else none
  | ds => if ds ≠ [] ∧ ds.all Char.isDigit then some (digitsVal ds : ℤ) else none

/-- Model of Python `s.startswith(p)`. -/
def startsWith (p s : PyStr) : Bool :=
  match p, s with
  | [], _ => true
  | _ :: _, [] => false
  | a :: ps, b :: ss => a = b && startsWith ps ss

/-- Model of Python `"sep".join` with a single-space separator. -/
def joinSpace : List PyStr → PyStr
  | [] => []
  | [t] => t
  | t :: rest => t ++ ' ' :: joinSpace rest

/-- Model of Python `s.split(":")` (all occurrences). -/
def splitColonAll (s : PyStr) : List PyStr :=
  (s.splitOnP (fun c => c = ':'))

/-- Left part of Python `s.split(":", 1)`. -/
def beforeColon (s : PyStr) : PyStr := s.takeWhile (fun c => c ≠ ':')

/-- Right part of Python `s.split(":", 1)` (everything after the first
colon; only used when the token contains a colon). -/
def afterColon (s : PyStr) : PyStr := (s.dropWhile (fun c => c ≠ ':')).tail

/-- Python truthiness of an optional string: `None` and `""` are falsy. -/
def truthy : Option PyStr → Bool
  | none => false
  | some s => s ≠ []

/-- Python `s or None`: an empty string becomes `None`. -/
def orNone (s : PyStr) : Option PyStr := if s = [] then none else some s

end Py

/-- Insertion-ordered association list lookup (Python `dict.get` /
`key in dict`). -/
def lookupA {β : Type} : List (PyStr × β) → PyStr → Option β
  | [], _ => none
  | (k, v) :: rest, key => if k = key then some v else lookupA rest key

/-- Insertion-ordered association list update (Python
`dict[key] = value`): replace in place if present, else append. -/
def setA {β : Type} : List (PyStr × β) → PyStr → β → List (PyStr × β)
  | [], key, v => [(key, v)]
  | (k, w) :: rest, key, v =>
      if k = key then (k, v) :: rest else (k, w) :: setA rest key v

/-- Python exceptions surfaced by the scripts. -/
inductive PyErr
  | httpError (status : ℕ)
  | requestError (msg : PyStr)
  | attributeError (attr : PyStr)
  | valueError
deriving DecidableEq, Repr

/-! ## master_scrape.py -/

namespace Master

/-- One parsed game produced by `master_scrape.parse_games`
(`{"game_number": idx, "a_points": a, "x_points": b}`). -/
structure Game where
  game_number : ℕ
  a_points : ℤ
  x_points : ℤ
deriving DecidableEq, Repr

/-- Worker for `parse_games`: `idx` is the 1-based `enumerate` counter
over the whitespace-split tokens. -/
def parseGamesAux : ℕ → List PyStr → List Game
  | _, [] => []
  | idx, tok :: rest =>
      let tail := parseGamesAux (idx + 1) rest
      if tok.contains ':' then
        match Py.parseInt (Py.strip (Py.beforeColon tok)),
              Py.parseInt (Py.strip (Py.afterColon tok)) with
        | some a, some b => { game_number := idx, a_points := a, x_points := b } :: tail
        | _, _ => tail
      else tail

/-- Translation of `master_scrape.parse_games`: strip the raw string, split on
whitespace, and keep tokens of the form `a:b` where both sides parse as
integers, numbering records by the token's 1-based position. -/
def parse_games (games_raw : PyStr) : List Game :=
  let g := Py.strip games_raw
  if g = [] then [] else parseGamesAux 1 (Py.splitWS g)

/-- Translation of `master_scrape.compute_set_score`: count games won by each side.
(`safe_int` applied to the integer points stored by `parse_games`
always succeeds, so it is elided.) -/
def compute_set_score : List Game → ℕ × ℕ
  | [] => (0, 0)
  | g :: rest =>
      let (a, x) := compute_set_score rest
      if g.a_points > g.x_points then (a + 1, x)
      else if g.x_points > g.a_points then (a, x + 1)
      else (a, x)

/-- Translation of `master_scrape.normalize_name`: heuristic split of a display name
into `(first_name, last_name, full_name)`. -/
def normalize_name (full_name : PyStr) : Option PyStr × Option PyStr × Option PyStr :=
  let fn := Py.strip full_name
  if fn = [] then (none, none, none)
  else
    let parts := Py.splitWS fn
    match parts with
    | [] => (none, none, none)
    | [p] => (none, some p, some fn)
    | _ :: _ :: _ =>
        let caps := parts.filter (fun p => Py.isUpperStr p && p.any Char.isAlpha)
        match caps with
        | last :: _ =>
            let first_parts := parts.filter (fun p => p ≠ last)
            let first := Py.joinSpace first_parts
            (Py.orNone first, Py.orNone last, some fn)
        | [] =>
            (Py.orNone (Py.joinSpace parts.dropLast), Py.orNone (parts.getLastD []), some fn)

/-- A Fabrik list row (the `vw_matches___*` JSON fields consumed by
`master_scrape` and the other Fabrik clients).  String-valued fields
default to `""` when the key is absent, mirroring
`str(row.get(key, ""))`; `winner` keeps the raw numeric JSON value;
`wo` keeps its truthiness. -/
structure Row where
  id : PyStr := []
  player_a_id : PyStr := []
  player_x_id : PyStr := []
  name_a : PyStr := []
  name_x : PyStr := []
  assoc_a : PyStr := []
  assoc_x : PyStr := []
  games_raw : PyStr := []
  yr_raw : PyStr := []
  yr : PyStr := []
  tournament : Option PyStr := none
  event : Option PyStr := none
  stage : Option PyStr := none
  round : Option PyStr := none
  wo : Bool := false
  winner : Option ℤ := none
deriving DecidableEq, Repr

/-- Sides `"A"`/`"X"` of a match. -/
inductive Side | A | X
deriving DecidableEq, Repr

/-- Participant sub-record of the normalized match produced by
`master_scrape.row_to_match`. -/
structure Participant where
  ittf_id : Option PyStr
  name : Option PyStr
  association : Option PyStr
deriving DecidableEq, Repr

/-- Normalized match produced by `master_scrape.row_to_match`. -/
structure MatchOut where
  match_id : PyStr
  year : Option PyStr
  tournament : Option PyStr
  event : Option PyStr
  stage : Option PyStr
  round : Option PyStr
  walkover : Bool
  winner_raw : Option ℤ
  winner_inferred : Option Side
  final_sets : ℕ × ℕ
  games : List Game
  player_a : Participant
  player_x : Participant
deriving DecidableEq, Repr

/-- Behaviour of `master_scrape.safe_int` on the raw numeric `winner` field:
`int(str(v))` succeeds on any integer and fails on `None`. -/
def safe_int_winner : Option ℤ → Option ℤ
  | none => none
  | some v => some v

/-- Translation of `master_scrape.row_to_match`, field by field. -/
def row_to_match (row : Row) : MatchOut :=
  let match_id := Py.strip row.id
  let a_id := Py.orNone (Py.strip row.player_a_id)
  let x_id := if row.player_x_id ≠ [] then some (Py.strip row.player_x_id) else none
  let a_name := Py.strip row.name_a
  let x_name := Py.strip row.name_x
  let a_assoc := Py.orNone (Py.strip row.assoc_a)
  let x_assoc := Py.orNone (Py.strip row.assoc_x)
  let games := parse_games row.games_raw
  let sets := compute_set_score games
  let winner_id := safe_int_winner row.winner
  let inferred : Option Side :=
    if sets.1 ≠ sets.2 ∧ (Py.truthy a_id = true ∨ Py.truthy x_id = true) then
      some (if sets.1 > sets.2 then Side.A else Side.X)
    else none
  let year := Py.orNone (Py.strip (if row.yr_raw ≠ [] then row.yr_raw else row.yr))
  { match_id := match_id
    year := year
    tournament := row.tournament
    event := row.event
    stage := row.stage
    round := row.round
    walkover := row.wo
    winner_raw := winner_id
    winner_inferred := inferred
    final_sets := sets
    games := games
    player_a := { ittf_id := a_id, name := Py.orNone a_name, association := a_assoc }
    player_x := { ittf_id := x_id, name := Py.orNone x_name, association := x_assoc } }

/-- Player record built by `master_scrape.upsert_player` (the
`last_seen` timestamp is threaded in as an abstract clock value). -/
structure PlayerRec where
  ittf_id : PyStr
  first_name : Option PyStr
  last_name : Option PyStr
  full_name : Option PyStr
  nationality : Option PyStr
  matches_played : ℕ
  wins : ℕ
  losses : ℕ
  sources : List PyStr
  last_seen : ℕ
deriving DecidableEq, Repr

/-- Translation of `master_scrape.upsert_player`: create the record on first sight of
an id; afterwards only fill in a missing nationality or name, update
`last_seen`, and add the source tag. -/
def upsert_player (players : List (PyStr × PlayerRec)) (ittf_id : Option PyStr)
    (name : Option PyStr) (association : Option PyStr) (now : ℕ) :
    List (PyStr × PlayerRec) :=
  match ittf_id with
  | none => players
  | some pid =>
    if pid = [] then players else
    let record :=
      match lookupA players pid with
      | some r => r
      | none =>
          let nn := normalize_name ((name.getD []))
          { ittf_id := pid
            first_name := nn.1
            last_name := nn.2.1
            full_name := nn.2.2
            nationality := association
            matches_played := 0
            wins := 0
            losses := 0
            sources := []
            last_seen := now }
    let record :=
      if Py.truthy association ∧ ¬ Py.truthy record.nationality then
        { record with nationality := association }
      else record
    let record :=
      if Py.truthy name ∧ ¬ Py.truthy record.full_name then
        let nn := normalize_name (name.getD [])
        { record with first_name := nn.1, last_name := nn.2.1, full_name := nn.2.2 }
      else record
    let record := { record with last_seen := now }
    let record :=
      if record.sources.contains "fabrik_matches".data then record
      else { record with sources := record.sources ++ ["fabrik_matches".data] }
    setA players pid record

/-- JSON body shapes returned by the Fabrik list endpoint: a list of
rows, a singleton-wrapped list of rows (the `[[...]]` case noted in the
source), or some non-list value. -/
inductive FabrikJson
  | rows (rs : List Row)
  | wrapped (rs : List Row)
  | other
deriving DecidableEq, Repr

/-- An HTTP response: status code and JSON body (`none` models a body
on which `resp.json()` raises). -/
structure HttpResp where
  status : ℕ
  body : Option FabrikJson
deriving DecidableEq, Repr

/-- The body-unwrapping logic of `fetch_fabrik_page`:
`data[0]` for `[[...]]`, the list itself for a plain list, `[]`
otherwise. -/
def page_rows : FabrikJson → List Row
  | .rows rs => rs
  | .wrapped rs => rs
  | .other => []

/-- Translation of `master_scrape.fetch_fabrik_page`: the session request may itself
raise (`Except` input); `raise_for_status()` turns a `>= 400` status
into an exception; there is no handler anywhere in this function, so
every error propagates to the caller. -/
def fetch_fabrik_page (result : Except PyErr HttpResp) : Except PyErr (List Row) := do
  let resp ← result
  if 400 ≤ resp.status then throw (PyErr.httpError resp.status)
  else
    match resp.body with
    | none => throw PyErr.valueError
    | some j => pure (page_rows j)

/-- De-duplication pass of `iter_fabrik_matches` over one page: skip
rows with an empty or already-seen (stripped) `vw_matches___id`, yield
the rest in order, and return the yielded rows, the grown `seen_ids`
set, and `new_count`. -/
def dedupPage : List Row → List PyStr → List Row × List PyStr × ℕ
  | [], seen => ([], seen, 0)
  | row :: rest, seen =>
      let mid := Py.strip row.id
      if mid = [] then dedupPage rest seen
      else if mid ∈ seen then dedupPage rest seen
      else
        let out := dedupPage rest (seen ++ [mid])
        (row :: out.1, out.2.1, out.2.2 + 1)

/-- Paging worker of `master_scrape.iter_fabrik_matches`.  `pageAt o`
is the row list the Fabrik endpoint returns at offset `o`; the fuel is
the remaining iterations of `for page in range(max_pages_per_year)`.
Returns the rows yielded and the list of offsets actually requested. -/
def iterAux (pageAt : ℕ → List Row) (pageSize : ℕ) :
    ℕ → ℕ → List PyStr → ℕ → List Row × List ℕ
  | 0, _, _, _ => ([], [])
  | fuel + 1, offset, seen, stagnant =>
      let rows := pageAt offset
      if rows = [] then ([], [offset])
      else
        let step := dedupPage rows seen
        let stagnant2 := if step.2.2 = 0 then stagnant + 1 else 0
        if 2 ≤ stagnant2 then (step.1, [offset])
        else
          let rest := iterAux pageAt pageSize fuel (offset + pageSize) step.2.1 stagnant2
          (step.1 ++ rest.1, offset :: rest.2)

/-- Translation of `master_scrape.iter_fabrik_matches`: fixed-size pages at offsets
`0, page_size, 2*page_size, ...`, stopping on an empty page, after two
consecutive pages with no new match id, or after `max_pages` pages;
rows are de-duplicated by stripped `vw_matches___id`. -/
def iter_fabrik_matches (pageAt : ℕ → List Row) (pageSize maxPages : ℕ) :
    List Row × List ℕ :=
  iterAux pageAt pageSize maxPages 0 [] 0

end Master

/-! ## fabrik_match_scraper.py -/

namespace Fabrik

/-- One parsed game of `FabrikMatchScraper.parse_game_scores`
(`{"game_number": i, "player_score": ..., "opponent_score": ...}`). -/
structure Game where
  game_number : ℕ
  player_score : ℤ
  opponent_score : ℤ
deriving DecidableEq, Repr

/-- Worker for `FabrikMatchScraper.parse_game_scores`; `i` is the
1-based `enumerate(game_strs, 1)` counter. -/
def parseGameScoresAux : ℕ → List PyStr → List Game
  | _, [] => []
  | i, tok :: rest =>
      let tail := parseGameScoresAux (i + 1) rest
      if tok = [] then tail
      else if tok.contains ':' then
        match Py.splitColonAll tok with
        | [l, r] =>
            match Py.parseInt (Py.strip l), Py.parseInt (Py.strip r) with
            | some a, some b =>
                { game_number := i, player_score := a, opponent_score := b } :: tail
            | _, _ => tail
        | _ => tail
      else tail

/-- Translation of `FabrikMatchScraper.parse_game_scores`: split the stripped string
on whitespace and keep the tokens that split on `":"` into exactly two
integer parts, numbering records by `i` (the token's 1-based
position). -/
def parse_game_scores (games_string : PyStr) : List Game :=
  parseGameScoresAux 1 (Py.splitWS (Py.strip games_string))

/-- The fabrik `Match` data model (the `scraped_at` timestamp is an
abstract clock value). -/
structure FMatch where
  match_id : PyStr
  player_id : PyStr
  player_name : PyStr
  opponent_id : Option PyStr
  opponent_name : PyStr
  player_association : PyStr
  opponent_association : PyStr
  tournament : Option PyStr
  event : Option PyStr
  stage : Option PyStr
  round_num : Option PyStr
  year : PyStr
  date : Option PyStr
  games : List Game
  winner_id : Option ℤ
  walkover : Bool
  scraped_at : ℕ
deriving DecidableEq, Repr

/-- The `Match(...)` construction inside `FabrikMatchScraper.scrape_year`,
field by field from a Fabrik row. -/
def row_to_fmatch (now : ℕ) (row : Master.Row) : FMatch :=
  { match_id := row.id
    player_id := row.player_a_id
    player_name := row.name_a
    opponent_id := if row.player_x_id ≠ [] then some row.player_x_id else none
    opponent_name := row.name_x
    player_association := row.assoc_a
    opponent_association := row.assoc_x
    tournament := row.tournament
    event := row.event
    stage := row.stage
    round_num := row.round
    year := row.yr_raw
    date := none
    games := parse_game_scores row.games_raw
    winner_id := match row.winner with
      | some w => if w ≠ 0 then some w else none
      | none => none
    walkover := row.wo
    scraped_at := now }

/-- The `while len(all_matches) < max_matches` loop shared verbatim by
`FabrikMatchScraper.scrape_year` and
`ComprehensiveDataCollector.scrape_matches_by_year`: every iteration
fetches with the same arguments (no offset is ever passed), appends the
converted page, and stops only on an empty page or once `max_matches`
rows have accumulated.  `page` is the converted result of the constant
`fetch_matches(year=year, limit=limit)` call; the fuel bounds the
iterations and `max_matches + 1` units are never exhausted. -/
def scrapeLoopAux {α : Type} (page : List α) (maxM : ℕ) : ℕ → List α → List α
  | 0, acc => acc
  | fuel + 1, acc =>
      if maxM ≤ acc.length then acc
      else if page.isEmpty then acc
      else scrapeLoopAux page maxM fuel (acc ++ page)

/-- Translation of `FabrikMatchScraper.scrape_year`: `rows` is what the (offset-less)
`fetch_matches` call returns on every iteration. -/
def scrape_year (now : ℕ) (rows : List Master.Row) (max_matches : ℕ) : List FMatch :=
  scrapeLoopAux (rows.map (row_to_fmatch now)) max_matches (max_matches + 1) []

/-- One step of `FabrikMatchScraper.extract_player_ids`: player A is
added only if the id is not yet a key; the opponent additionally needs
a truthy id. -/
def extractPlayersStep (players : List (PyStr × PyStr)) (m : FMatch) :
    List (PyStr × PyStr) :=
  let players :=
    if (lookupA players m.player_id).isNone then setA players m.player_id m.player_name
    else players
  if Py.truthy m.opponent_id ∧ (lookupA players (m.opponent_id.getD [])).isNone then
    setA players (m.opponent_id.getD []) m.opponent_name
  else players

/-- Translation of `FabrikMatchScraper.extract_player_ids`. -/
def extract_player_ids (ms : List FMatch) : List (PyStr × PyStr) :=
  ms.foldl extractPlayersStep []

end Fabrik

/-! ## comprehensive_collector.py -/

namespace Comp

/-- One parsed game of `FabrikAPIClient.parse_game_scores` (note the
`"game_number": i + 1` in the source, on top of `enumerate(_, 1)`). -/
structure Game where
  game_number : ℕ
  player_score : ℤ
  opponent_score : ℤ
deriving DecidableEq, Repr

/-- Worker for `FabrikAPIClient.parse_game_scores`; `i` is the 1-based
`enumerate(game_strs, 1)` counter and the stored number is `i + 1`. -/
def parseGameScoresAux : ℕ → List PyStr → List Game
  | _, [] => []
  | i, tok :: rest =>
      let tail := parseGameScoresAux (i + 1) rest
      if tok = [] then tail
      else if tok.contains ':' then
        match Py.splitColonAll tok with
        | [l, r] =>
            match Py.parseInt (Py.strip l), Py.parseInt (Py.strip r) with
            | some a, some b =>
                { game_number := i + 1, player_score := a, opponent_score := b } :: tail
            | _, _ => tail
        | _ => tail
      else tail

/-- Translation of `FabrikAPIClient.parse_game_scores` of `comprehensive_collector`. -/
def parse_game_scores (games_string : PyStr) : List Game :=
  parseGameScoresAux 1 (Py.splitWS (Py.strip games_string))

/-- Translation of `ComprehensiveDataCollector.parse_player_name`: returns
`(first_name, last_name)`.  The `len(parts) > 2` branches of the source
both return `(" ".join(parts[1:]), parts[0])`; the final `else` is the
empty-split case and returns the original string as first name. -/
def parse_player_name (full_name : PyStr) : Option PyStr × Option PyStr :=
  if full_name = [] then (none, none)
  else
    match Py.splitWS (Py.strip full_name) with
    | [] => (some full_name, none)
    | [p] => (some p, none)
    | [a, b] => (some b, some a)
    | a :: rest => (some (Py.joinSpace rest), some a)

/-- Translation of `WTTAPIClient.extract_gender_from_event_code`: an exact lookup in
the `gender_map` dictionary. -/
def extract_gender_from_event_code (event_code : PyStr) : Option PyStr :=
  if event_code = "MS".data then some "M".data
  else if event_code = "WS".data then some "W".data
  else if event_code = "MDI".data then some "M".data
  else if event_code = "WDI".data then some "W".data
  else if event_code = "XD".data then some "mixed".data
  else if event_code = "XDI".data then some "mixed".data
  else none

/-- The comprehensive collector's `Match` data model (its `__init__`
defines exactly these instance attributes). -/
structure CMatch where
  match_id : PyStr
  player_id : PyStr
  player_name : PyStr
  opponent_id : Option PyStr
  opponent_name : PyStr
  player_association : PyStr
  opponent_association : PyStr
  tournament : Option PyStr
  event : Option PyStr
  stage : Option PyStr
  round_num : Option PyStr
  date : Option PyStr
  year : PyStr
  games : List Game
  winner_id : Option ℤ
  walkover : Bool
deriving DecidableEq, Repr

/-- The `Match(...)` construction inside
`ComprehensiveDataCollector.scrape_matches_by_year`. -/
def row_to_cmatch (row : Master.Row) : CMatch :=
  { match_id := row.id
    player_id := row.player_a_id
    player_name := row.name_a
    opponent_id := if row.player_x_id ≠ [] then some row.player_x_id else none
    opponent_name := row.name_x
    player_association := row.assoc_a
    opponent_association := row.assoc_x
    tournament := row.tournament
    event := row.event
    stage := row.stage
    round_num := row.round
    date := none
    year := row.yr_raw
    games := parse_game_scores row.games_raw
    winner_id := match row.winner with
      | some w => if w ≠ 0 then some w else none
      | none => none
    walkover := row.wo }

/-- Translation of `ComprehensiveDataCollector.scrape_matches_by_year`: the same
offset-less fetch loop as `Fabrik.scrape_year`. -/
def scrape_matches_by_year (rows : List Master.Row) (max_matches : ℕ) : List CMatch :=
  Fabrik.scrapeLoopAux (rows.map row_to_cmatch) max_matches (max_matches + 1) []

/-- The comprehensive collector's `Player` data model (`scraped_at`
abstracted away). -/
structure CPlayer where
  ittf_id : PyStr
  first_name : Option PyStr
  last_name : Option PyStr
  full_name : PyStr
  nationality : PyStr
  gender : Option PyStr
  source : PyStr
deriving DecidableEq, Repr

/-- Python values held by `Match` attributes. -/
inductive PyVal
  | vStr (s : PyStr)
  | vOptStr (o : Option PyStr)
  | vGames (g : List Game)
  | vOptInt (o : Option ℤ)
  | vBool (b : Bool)
deriving DecidableEq, Repr

/-- Python truthiness of an attribute value. -/
def pyValTruthy : PyVal → Bool
  | .vStr s => s ≠ []
  | .vOptStr o => Py.truthy o
  | .vGames g => ¬ g.isEmpty
  | .vOptInt o => o.elim false (fun n => n ≠ 0)
  | .vBool b => b

/-- String content of an attribute value (only ever applied to
string-typed attributes in reachable code). -/
def pyValAsStr : PyVal → PyStr
  | .vStr s => s
  | .vOptStr o => o.getD "None".data
  | _ => []

/-- Model of `getattr(match, name)` on the comprehensive `Match` class: the
sixteen attributes assigned in `__init__` resolve; any other name
raises `AttributeError`. -/
def cmatchGetattr (m : CMatch) (a : PyStr) : Except PyErr PyVal :=
  if a = "match_id".data then .ok (.vStr m.match_id)
  else if a = "player_id".data then .ok (.vStr m.player_id)
  else if a = "player_name".data then .ok (.vStr m.player_name)
  else if a = "opponent_id".data then .ok (.vOptStr m.opponent_id)
  else if a = "opponent_name".data then .ok (.vStr m.opponent_name)
  else if a = "player_association".data then .ok (.vStr m.player_association)
  else if a = "opponent_association".data then .ok (.vStr m.opponent_association)
  else if a = "tournament".data then .ok (.vOptStr m.tournament)
  else if a = "event".data then .ok (.vOptStr m.event)
  else if a = "stage".data then .ok (.vOptStr m.stage)
  else if a = "round_num".data then .ok (.vOptStr m.round_num)
  else if a = "date".data then .ok (.vOptStr m.date)
  else if a = "year".data then .ok (.vStr m.year)
  else if a = "games".data then .ok (.vGames m.games)
  else if a = "winner_id".data then .ok (.vOptInt m.winner_id)
  else if a = "walkover".data then .ok (.vBool m.walkover)
  else .error (.attributeError a)

/-- Discovery state: the `discovered_ids` set (insertion ordered) and
the `players_db` mapping. -/
structure DiscoverState where
  discovered_ids : List PyStr
  players_db : List (PyStr × CPlayer)
deriving Repr

/-- Body of the inner `for player_field in ["player_a", "player_x",
"player_y"]` loop of `discover_players_from_matches`, for one field
name. -/
def discoverField (m : CMatch) (st : DiscoverState) (fieldName : PyStr) :
    Except PyErr DiscoverState := do
  let pid ← cmatchGetattr m (fieldName ++ "_id".data)
  let pname ← cmatchGetattr m (fieldName ++ "_name".data)
  if pyValTruthy pid ∧ ¬ st.discovered_ids.contains (pyValAsStr pid) then
    let names := parse_player_name (pyValAsStr pname)
    let player : CPlayer :=
      { ittf_id := pyValAsStr pid
        first_name := names.1
        last_name := names.2
        full_name := pyValAsStr pname
        nationality := []
        gender := none
        source := "match_data_discovery".data }
    pure { discovered_ids := st.discovered_ids ++ [pyValAsStr pid]
           players_db := setA st.players_db (pyValAsStr pid) player }
  else pure st

/-- Per-match body of `discover_players_from_matches`. -/
def discoverMatch (st : DiscoverState) (m : CMatch) : Except PyErr DiscoverState :=
  ["player_a".data, "player_x".data, "player_y".data].foldlM (discoverField m) st

/-- Translation of `ComprehensiveDataCollector.discover_players_from_matches`:
for each year, scrape up to 200 matches and walk their player fields;
no handler surrounds the `getattr` calls, so an `AttributeError`
propagates out of the whole method.  `rowsOf y` is the constant page
the Fabrik API returns for year `y`.  Returns the discovered id set. -/
def discover_players_from_matches (rowsOf : ℕ → List Master.Row) (years : List ℕ) :
    Except PyErr (List PyStr) := do
  let st ← years.foldlM
    (fun st y => (scrape_matches_by_year (rowsOf y) 200).foldlM discoverMatch st)
    { discovered_ids := [], players_db := [] }
  pure st.discovered_ids

end Comp

/-! ## scrapers/comprehensive_scraper.py -/

namespace CompScraper

/-- Translation of `ITTFComprehensiveScraper.determine_player_gender`: a genuinely
prefix-based classification. -/
def determine_player_gender (_player_id event_code : PyStr) : PyStr :=
  if Py.startsWith "MS".data event_code || Py.startsWith "MD".data event_code then
    "male".data
  else if Py.startsWith "WS".data event_code || Py.startsWith "WD".data event_code then
    "female".data
  else if Py.startsWith "XD".data event_code then "mixed".data
  else "unknown".data

end CompScraper

/-! ## wtt_ittf_scraper.py -/

namespace WTTRest

/-- An HTTP response as seen by `_request_with_retry`: status code, the raw
string value of the `Retry-After` header when that header is present,
whether `response.json()` succeeds, and an abstract payload. -/
structure Resp where
  code : ℕ
  retryAfter : Option PyStr
  jsonOk : Bool
  payload : ℕ
deriving DecidableEq, Repr

/-- Outcome of one `session.request` call: a response, or a raised
`requests.RequestException`. -/
inductive Attempt
  | resp (r : Resp)
  | netError
deriving DecidableEq, Repr

/-- Computation of `int(response.headers.get("Retry-After", 5))`: a missing
header defaults to the integer 5, and a present header value goes through
`int()`, which raises `ValueError` (here `none`) when the value is not an
integer literal, e.g. an HTTP-date. -/
def parseRetryAfter : Option PyStr → Option ℤ
  | none => some 5
  | some s => Py.parseInt s

/-- Translation of `WTTRestScraper._request_with_retry` over the response
sequence of successive attempts (`attempts.length` plays the role of
`max_retries`, the range of the `for attempt in range(...)` loop).
Returns the parsed payload (or `None`) together with the list of back-off
sleeps performed, or the uncaught exception.  Branches in source order:
429 → `int()` the `Retry-After` header, then
`time.sleep(retry_after * 2**attempt)` and continue; 200 → return payload
(or `None` on a JSON parse error); 401/403/404 → return `None` at once;
5xx → raise `requests.HTTPError`, caught below as a retry with sleep
`2**attempt`; anything else → return `None`; loop exhausted → return
`None`.  The `except` clause catches only `requests.RequestException`, so
the `ValueError` that `int()` raises on a non-numeric header, or that
`time.sleep` raises on a negative duration, escapes the loop and aborts
the call. -/
def reqRetry : List Attempt → ℕ → Except PyErr (Option ℕ × List ℤ)
  | [], _ => .ok (none, [])
  | .netError :: rest, attempt =>
      match reqRetry rest (attempt + 1) with
      | .ok out => .ok (out.1, (2 ^ attempt : ℤ) :: out.2)
      | .error e => .error e
  | .resp r :: rest, attempt =>
      if r.code = 429 then
        match parseRetryAfter r.retryAfter with
        | none => .error .valueError
        | some ra =>
            if ra * 2 ^ attempt < 0 then .error .valueError
            else
              match reqRetry rest (attempt + 1) with
              | .ok out => .ok (out.1, ra * 2 ^ attempt :: out.2)
              | .error e => .error e
      else if r.code = 200 then
        .ok (if r.jsonOk then some r.payload else none, [])
      else if r.code = 401 ∨ r.code = 403 ∨ r.code = 404 then .ok (none, [])
      else if 500 ≤ r.code ∧ r.code < 600 then
        match reqRetry rest (attempt + 1) with
        | .ok out => .ok (out.1, (2 ^ attempt : ℤ) :: out.2)
        | .error e => .error e
      else .ok (none, [])

/-- Entry point of `_request_with_retry`, started at attempt 0. -/
def request_with_retry (attempts : List Attempt) : Except PyErr (Option ℕ × List ℤ) :=
  reqRetry attempts 0

end WTTRest

/-! ## scrape_ttbl_enhanced.py

The per-match processing loop, the player-stats accumulation, the
win-rate computation (including a faithful model of CPython's binary64
float arithmetic, which the `wins / gamesPlayed * 100` expression runs
in), and the two module-level dedup/discovery loops. -/

namespace TTBL

/-- A player object inside a TTBL game JSON. -/
structure TPlayer where
  id : Option PyStr
  firstName : PyStr
  lastName : PyStr
deriving DecidableEq, Repr

/-- One game inside a TTBL match JSON. -/
structure TGame where
  index : Option ℤ
  gameState : Option PyStr
  winnerSide : Option PyStr
  homePlayer : Option TPlayer
  homeLeaguePlayer : Option TPlayer
  awayPlayer : Option TPlayer
  awayLeaguePlayer : Option TPlayer
deriving DecidableEq, Repr

/-- The fields of a TTBL match JSON the stats loop reads. -/
structure TMatchPayload where
  matchState : Option PyStr
  homeTeamName : Option PyStr
  awayTeamName : Option PyStr
  timeStamp : ℤ
  gamedayName : Option PyStr
  games : List TGame
deriving DecidableEq, Repr

/-- One `game_record` appended to `games_data`. -/
structure GameRecord where
  matchId : PyStr
  gameday : PyStr
  timestamp : ℤ
  gameIndex : Option ℤ
  gameState : Option PyStr
  winnerSide : Option PyStr
  homePlayerId : Option PyStr
  homePlayerName : PyStr
  awayPlayerId : Option PyStr
  awayPlayerName : PyStr
deriving DecidableEq, Repr

/-- One `player_stats` record. -/
structure TStats where
  id : PyStr
  name : PyStr
  gamesPlayed : ℕ
  wins : ℕ
  losses : ℕ
  lastMatch : PyStr
deriving DecidableEq, Repr

/-- The mutable state of the match loop: `player_stats` (an
insertion-ordered dict) and `games_data`. -/
structure TState where
  stats : List (PyStr × TStats)
  gamesData : List GameRecord
deriving Repr

/-- Model of `game.get("homePlayer") or game.get("homeLeaguePlayer") or {}`
(the empty dict is modelled by `none`). -/
def playerOf : Option TPlayer → Option TPlayer → Option TPlayer
  | some q, _ => some q
  | none, lp => lp

/-- Model of `home_player.get("id") if home_player else None`. -/
def playerIdOf (p : Option TPlayer) : Option PyStr := p.bind TPlayer.id

/-- The f-string name: `f"{firstName} {lastName}".strip()` when a
player dict is present, `"Unknown"` otherwise. -/
def playerNameOf : Option TPlayer → PyStr
  | some q => Py.strip (q.firstName ++ ' ' :: q.lastName)
  | none => "Unknown".data

/-- Model of `if player_id and player_id != "null"`. -/
def validId : Option PyStr → Bool
  | some s => s ≠ [] && s ≠ "null".data
  | none => false

/-- The freshly initialised stats record (all counters zero). -/
def statsInit (pid name mid : PyStr) : TStats :=
  { id := pid, name := name, gamesPlayed := 0, wins := 0, losses := 0, lastMatch := mid }

/-- The per-side mutation: `gamesPlayed += 1`, `lastMatch = match_id`,
and exactly one of `wins`/`losses` incremented (the `else` branch of
the winner test charges a loss). -/
def bumpStats (s : TStats) (mid : PyStr) (won : Bool) : TStats :=
  { s with
    gamesPlayed := s.gamesPlayed + 1
    lastMatch := mid
    wins := s.wins + (if won then 1 else 0)
    losses := s.losses + (if won then 0 else 1) }

/-- Insert-if-absent followed by the increments, as the source does for
each side of a finished game. -/
def updatePlayerStats (m : List (PyStr × TStats)) (pid name mid : PyStr) (won : Bool) :
    List (PyStr × TStats) :=
  setA m pid (bumpStats ((lookupA m pid).getD (statsInit pid name mid)) mid won)

/-- Processing of one game inside the match loop: append the game
record, and on a `"Finished"` game update the stats of each side whose
player id is valid. -/
def processGame (mid gday : PyStr) (ts : ℤ) (st : TState) (g : TGame) : TState :=
  let hp := playerOf g.homePlayer g.homeLeaguePlayer
  let ap := playerOf g.awayPlayer g.awayLeaguePlayer
  let hid := playerIdOf hp
  let aid := playerIdOf ap
  let hname := playerNameOf hp
  let aname := playerNameOf ap
  let record : GameRecord :=
    { matchId := mid, gameday := gday, timestamp := ts, gameIndex := g.index
      gameState := g.gameState, winnerSide := g.winnerSide
      homePlayerId := hid, homePlayerName := hname
      awayPlayerId := aid, awayPlayerName := aname }
  let stats := st.stats
  let stats :=
    if g.gameState = some "Finished".data then
      let stats :=
        if validId hid then
          updatePlayerStats stats (hid.getD []) hname mid (g.winnerSide = some "Home".data)
        else stats
      if validId aid then
        updatePlayerStats stats (aid.getD []) aname mid (g.winnerSide = some "Away".data)
      else stats
    else stats
  { stats := stats, gamesData := st.gamesData ++ [record] }

/-- Processing of one fetched match: fold over its games. -/
def processMatch (st : TState) (mid : PyStr) (p : TMatchPayload) : TState :=
  p.games.foldl (processGame mid (p.gamedayName.getD "Unknown".data) p.timeStamp) st

/-- The `[2/7]` match loop: each iteration fetches and parses one match
inside a `try`; any exception is printed and the loop `continue`s, so a
failed match contributes nothing. -/
def processMatches (fetch : PyStr → Except PyErr TMatchPayload) :
    List PyStr → TState → TState
  | [], st => st
  | mid :: rest, st =>
      match fetch mid with
      | .error _ => processMatches fetch rest st
      | .ok p => processMatches fetch rest (processMatch st mid p)

/-- The `[1/7]` gameday discovery loop (gamedays 1..18): each iteration
calls `fetch_url` with no exception handler, so a raised error aborts
the whole script.  `extractIds` stands for the pure regex extraction of
36-character match ids from the page. -/
def discover_match_ids (fetchHtml : ℕ → Except PyErr PyStr)
    (extractIds : PyStr → List PyStr) : Except PyErr (List PyStr) :=
  (List.range' 1 18).foldlM
    (fun acc g => do
      let html ← fetchHtml g
      pure (acc ++ extractIds html))
    []

/-! ### binary64 model for the win-rate computation

`int(stats["wins"] / stats["gamesPlayed"] * 100)` runs in IEEE-754
binary64: CPython's `wins / gamesPlayed` is the correctly rounded
(nearest, ties to even) double of the exact integer quotient, the
product with `100` is correctly rounded again, and `int()` truncates
toward zero.  The model below computes these roundings in exact
integer arithmetic: a positive double is encoded as a significand `m`
and an exponent `e` with value `m * 2 ^ (e - 52)`, where
`e = floor(log2 value)` and `m = rne(value * 2 ^ (52 - e))`.  The
values occurring here are far inside the normal range, so neither
overflow nor subnormals arise. -/

/-- Fuel-driven base-2 integer logarithm (structural recursion so the
kernel can evaluate it; `natLog2 n = Nat.log2 n`). -/
def natLog2F : ℕ → ℕ → ℕ
  | 0, _ => 0
  | fuel + 1, n => if n ≤ 1 then 0 else natLog2F fuel (n / 2) + 1

/-- Base-2 integer logarithm. -/
def natLog2 (n : ℕ) : ℕ := natLog2F n n

/-- Decides `2 ^ e ≤ n / d` by cross-multiplication. -/
def pow2Le (e : ℤ) (n d : ℕ) : Bool :=
  if 0 ≤ e then decide (d * 2 ^ e.toNat ≤ n) else decide (d ≤ n * 2 ^ (-e).toNat)

/-- Computation of `floor(log2 (n / d))` for positive `n`, `d`: the candidate
`log2 n - log2 d` is off by at most one and is corrected by a direct
comparison. -/
def flog2 (n d : ℕ) : ℤ :=
  let e0 : ℤ := (natLog2 n : ℤ) - (natLog2 d : ℤ)
  if pow2Le e0 n d then e0 else e0 - 1

/-- Round `n / d` (`d > 0`) to the nearest natural, ties to even. -/
def rneN (n d : ℕ) : ℕ :=
  let f := n / d
  let r2 := 2 * (n % d)
  if r2 < d then f
  else if d < r2 then f + 1
  else if f % 2 = 0 then f else f + 1

/-- Computation of `rne((n / d) * 2 ^ k)`: scale the fraction by `2 ^ k` and round to
the nearest integer. -/
def scaleRne (n d : ℕ) (k : ℤ) : ℕ :=
  if 0 ≤ k then rneN (n * 2 ^ k.toNat) d else rneN n (d * 2 ^ (-k).toNat)

/-- The correctly rounded binary64 value of `n / d` (`n, d > 0`) as a
significand/exponent pair `(m, e)` of value `m * 2 ^ (e - 52)`. -/
def flFrac (n d : ℕ) : ℕ × ℤ :=
  let e := flog2 n d
  (scaleRne n d (52 - e), e)

/-- The product `t1 * 100` of a dyadic float value `m * 2 ^ (e - 52)`
with 100, written as an exact fraction (numerator, denominator). -/
def mulFrac100 (p : ℕ × ℤ) : ℕ × ℕ :=
  if 0 ≤ p.2 - 52 then (p.1 * 100 * 2 ^ (p.2 - 52).toNat, 1)
  else (p.1 * 100, 2 ^ (52 - p.2).toNat)

/-- Python `int()` (truncation toward zero, here of a nonnegative
dyadic float value `m * 2 ^ (e - 52)`). -/
def truncDyadic (p : ℕ × ℤ) : ℤ :=
  if 0 ≤ p.2 - 52 then ((p.1 * 2 ^ (p.2 - 52).toNat : ℕ) : ℤ)
  else ((p.1 / 2 ^ (52 - p.2).toNat : ℕ) : ℤ)

/-- The value of `int(w / g * 100)` as CPython computes it in binary64
(`g > 0`): round `w / g` to a double, multiply by 100 and round again,
truncate.  The `w = 0` guard is the exact-zero float path, and the
`f.1 = 0` guard is unreachable for positive inputs. -/
def pyWinRate (w g : ℕ) : ℤ :=
  if w = 0 then 0
  else
    let f := mulFrac100 (flFrac w g)
    if f.1 = 0 then 0 else truncDyadic (flFrac f.1 f.2)

/-- One record of `player_stats_final` (the `stats.copy()` plus the
computed `winRate`). -/
structure StatsOut where
  id : PyStr
  name : PyStr
  gamesPlayed : ℕ
  wins : ℕ
  losses : ℕ
  lastMatch : PyStr
  winRate : ℤ
deriving DecidableEq, Repr

/-- The `[3/7]` per-player finalisation: copy the record and attach
`winRate` (zero when no games were played). -/
def finalizeOne (e : PyStr × TStats) : StatsOut :=
  { id := e.2.id, name := e.2.name, gamesPlayed := e.2.gamesPlayed
    wins := e.2.wins, losses := e.2.losses, lastMatch := e.2.lastMatch
    winRate := if 0 < e.2.gamesPlayed then pyWinRate e.2.wins e.2.gamesPlayed else 0 }

/-- Translation of `player_stats_final`: build the list and stable-sort it by
`winRate` descending (`list.sort(key=..., reverse=True)`).  Python's
`list.sort` is stable, and a stable sort of a list under a total
preorder is unique, so it is modelled by the (stable) insertion
sort. -/
def player_stats_final (stats : List (PyStr × TStats)) : List StatsOut :=
  (stats.map finalizeOne).insertionSort (fun a b => b.winRate ≤ a.winRate)

/-- A raw player entry of the `[4/7]` extraction loop. -/
structure PRec where
  id : Option PyStr
  firstName : Option PyStr
  lastName : Option PyStr
  imageUrl : Option PyStr
  matchId : PyStr
deriving DecidableEq, Repr

/-- One step of the `unique_players` dedup loop: insert only when the
id is truthy and not yet a key. -/
def uniqueStep (m : List (PyStr × PRec)) (p : PRec) : List (PyStr × PRec) :=
  if Py.truthy p.id ∧ (lookupA m (p.id.getD [])).isNone then
    setA m (p.id.getD []) p
  else m

/-- The `unique_players` mapping built from `all_players`; the script
then writes `list(unique_players.values())`. -/
def unique_players (ps : List PRec) : List (PyStr × PRec) :=
  ps.foldl uniqueStep []

end TTBL

/-! ## String lemmas -/

namespace Py

/-- A token produced by whitespace splitting contains no whitespace. -/
def NoWS (t : PyStr) : Prop := ∀ c ∈ t, isSpaceChar c = false

instance (t : PyStr) : Decidable (NoWS t) := List.decidableBAll _ t

/-- Inversion for `startsWith` with a two-character pattern. -/
theorem startsWith_pair {a b : Char} {s : PyStr} (h : startsWith [a, b] s = true) :
    ∃ r, s = a :: b :: r := by
  match s with
  | [] => exact absurd h (by simp [startsWith])
  | [c] =>
      exfalso
      have : (decide (a = c) && false) = true := h
      simp at this
  | c1 :: c2 :: r =>
      have h1 : (decide (a = c1) && (decide (b = c2) && true)) = true := h
      simp only [Bool.and_eq_true, decide_eq_true_eq] at h1
      exact ⟨r, by rw [h1.1, h1.2.1]⟩

theorem dropWhile_eq_self_of_head {p : Char → Bool} {s : PyStr}
    (h : ∀ hc : s ≠ [], p (s.head hc) = false) : s.dropWhile p = s := by
  cases s with
  | nil => rfl
  | cons c rest =>
      have hc := h (by simp)
      simp only [List.head_cons] at hc
      simp [List.dropWhile_cons, hc]

theorem strip_of_ends {s : PyStr} (h1 : s ≠ [])
    (hh : isSpaceChar (s.head h1) = false)
    (hl : isSpaceChar (s.getLast h1) = false) : strip s = s := by
  unfold strip
  rw [dropWhile_eq_self_of_head (fun _ => hh)]
  rw [dropWhile_eq_self_of_head (fun hr => ?_), List.reverse_reverse]
  rw [List.head_reverse]
  exact hl

theorem strip_of_noWS {s : PyStr} (h1 : s ≠ []) (h : NoWS s) : strip s = s :=
  strip_of_ends h1 (h _ (List.head_mem h1)) (h _ (List.getLast_mem h1))

theorem strip_token_pair {t1 t2 : PyStr} (n1 : t1 ≠ []) (n2 : t2 ≠ [])
    (w1 : NoWS t1) (w2 : NoWS t2) :
    strip (t1 ++ ' ' :: t2) = t1 ++ ' ' :: t2 := by
  obtain ⟨c, t1x, rfl⟩ := List.exists_cons_of_ne_nil n1
  refine strip_of_ends (by simp) ?_ ?_
  · simpa using w1 c (by simp)
  · rw [List.getLast_append_of_ne_nil (by simp)]
    simp only [List.getLast_cons n2]
    exact w2 _ (List.getLast_mem n2)

theorem splitWSAux_word (rest : PyStr) :
    ∀ (t acc : PyStr), NoWS t → (acc ≠ [] ∨ t ≠ []) →
      splitWSAux (t ++ ' ' :: rest) acc = (acc.reverse ++ t) :: splitWSAux rest []
  | [], acc, _, hne => by
      have hacc : acc ≠ [] := by tauto
      simp [splitWSAux, isSpaceChar, hacc]
  | c :: t', acc, hws, _ => by
      have hc : isSpaceChar c = false := hws c (by simp)
      have ih := splitWSAux_word rest t' (c :: acc) (fun x hx => hws x (by simp [hx]))
        (Or.inl (by simp))
      simp only [List.cons_append, splitWSAux, hc, Bool.false_eq_true, if_false,
        List.append_eq]
      rw [ih]
      simp

theorem splitWSAux_last :
    ∀ (t acc : PyStr), NoWS t → (acc ≠ [] ∨ t ≠ []) →
      splitWSAux t acc = [acc.reverse ++ t]
  | [], acc, _, hne => by
      have hacc : acc ≠ [] := by tauto
      simp [splitWSAux, hacc]
  | c :: t', acc, hws, _ => by
      have hc : isSpaceChar c = false := hws c (by simp)
      have ih := splitWSAux_last t' (c :: acc) (fun x hx => hws x (by simp [hx]))
        (Or.inl (by simp))
      simp only [splitWSAux, hc, Bool.false_eq_true, if_false]
      rw [ih]
      simp

theorem splitWS_pair {t1 t2 : PyStr} (n1 : t1 ≠ []) (n2 : t2 ≠ [])
    (w1 : NoWS t1) (w2 : NoWS t2) :
    splitWS (t1 ++ ' ' :: t2) = [t1, t2] := by
  unfold splitWS
  rw [splitWSAux_word t2 t1 [] w1 (Or.inr n1), splitWSAux_last t2 [] w2 (Or.inr n2)]
  simp

theorem splitWS_single {t : PyStr} (n : t ≠ []) (w : NoWS t) : splitWS t = [t] := by
  unfold splitWS
  rw [splitWSAux_last t [] w (Or.inr n)]
  simp

end Py

/-! ## Claims -/

/-- C1: for a string of space-separated `a:b` tokens, each game-score
parser should produce one record per valid token in input order,
skipping malformed tokens, with `game_number` equal to the token's
1-based position.  Evaluated at `"11:9 bad 4:11"`: the master and
fabrik parsers number the two valid tokens 1 and 3 as claimed, but
`comprehensive_collector`'s parser numbers them 2 and 4 — its
`"game_number": i + 1` adds one on top of `enumerate(game_strs, 1)`,
which already starts at 1. -/
theorem game_score_numbering_eval :
    Master.parse_games "11:9 bad 4:11".data =
      [{ game_number := 1, a_points := 11, x_points := 9 },
       { game_number := 3, a_points := 4, x_points := 11 }]
    ∧ Fabrik.parse_game_scores "11:9 bad 4:11".data =
      [{ game_number := 1, player_score := 11, opponent_score := 9 },
       { game_number := 3, player_score := 4, opponent_score := 11 }]
    ∧ Comp.parse_game_scores "11:9 bad 4:11".data =
      [{ game_number := 2, player_score := 11, opponent_score := 9 },
       { game_number := 4, player_score := 4, opponent_score := 11 }] := by
  decide

/-- C2 counterexample: the claim says every name normalizer maps a
single-token input to `(first = None, last = token)`, but
`ComprehensiveDataCollector.parse_player_name("Wang")` returns
`(first = "Wang", last = None)`. -/
theorem parse_player_name_single_token_cex :
    Comp.parse_player_name "Wang".data = (some "Wang".data, none)
    ∧ Comp.parse_player_name "Wang".data ≠ (none, some "Wang".data) := by
  decide

/-- C2 (amended): for a two-token input `"SURNAME Firstname"` whose
first token is all-caps and whose second is not, both normalizers
return `first = "Firstname"`, `last = "SURNAME"`; on a single token,
`master_scrape.normalize_name` returns `(first = None, last = token)`
as claimed, while `parse_player_name` returns the reversed
`(first = token, last = None)`. -/
theorem name_normalizers_amended (t1 t2 : PyStr) (n1 : t1 ≠ []) (n2 : t2 ≠ [])
    (w1 : Py.NoWS t1) (w2 : Py.NoWS t2)
    (u1 : Py.isUpperStr t1 = true) (u2 : Py.isUpperStr t2 = false) :
    Master.normalize_name (t1 ++ ' ' :: t2) = (some t2, some t1, some (t1 ++ ' ' :: t2))
    ∧ Comp.parse_player_name (t1 ++ ' ' :: t2) = (some t2, some t1)
    ∧ Master.normalize_name t1 = (none, some t1, some t1)
    ∧ Comp.parse_player_name t1 = (some t1, none) := by
  have hst := Py.strip_token_pair n1 n2 w1 w2
  have hsp := Py.splitWS_pair n1 n2 w1 w2
  have hst1 := Py.strip_of_noWS n1 w1
  have hsp1 := Py.splitWS_single n1 w1
  have hne : t1 ++ ' ' :: t2 ≠ [] := by simp
  have hneq : t2 ≠ t1 := by
    intro h
    simp [h, u1] at u2
  have han : t1.any Char.isAlpha = true := by
    have h := u1
    simp only [Py.isUpperStr, Bool.and_eq_true] at h
    exact h.1
  refine ⟨?_, ?_, ?_, ?_⟩
  · simp only [Master.normalize_name, hst, hsp, if_neg hne]
    simp [u1, u2, han, hneq, Py.joinSpace, Py.orNone, n1, n2]
  · simp only [Comp.parse_player_name, if_neg hne, hst, hsp]
  · simp only [Master.normalize_name, hst1, hsp1, if_neg n1]
  · simp only [Comp.parse_player_name, if_neg n1, hst1, hsp1]

/-- C2 witness: the amended statement applied at `"WANG Chuqin"` and
the single token `"WANG"`. -/
theorem name_normalizers_amended_witness :
    Master.normalize_name "WANG Chuqin".data =
      (some "Chuqin".data, some "WANG".data, some "WANG Chuqin".data)
    ∧ Comp.parse_player_name "WANG Chuqin".data =
      (some "Chuqin".data, some "WANG".data)
    ∧ Master.normalize_name "WANG".data = (none, some "WANG".data, some "WANG".data)
    ∧ Comp.parse_player_name "WANG".data = (some "WANG".data, none) := by
  have h := name_normalizers_amended "WANG".data "Chuqin".data
    (by decide) (by decide) (by decide) (by decide) (by decide) (by decide)
  exact h

/-- C8 counterexample: `"MS1"` begins with `"MS"`, yet
`WTTAPIClient.extract_gender_from_event_code` returns `None` for it
rather than the male gender, because it is an exact dictionary lookup
and not a prefix test. -/
theorem extract_gender_ms1_cex :
    Py.startsWith "MS".data "MS1".data = true
    ∧ Comp.extract_gender_from_event_code "MS1".data = none := by
  decide

/-- C8 (amended): `determine_player_gender` is genuinely prefix-based
(`MS*` male, `WS*` female), while `extract_gender_from_event_code`
maps only the exact codes `MS`/`WS` (and `MDI`/`WDI`/`XD`/`XDI`) and
returns `None` for every other string, including strings that merely
begin with `MS` or `WS`. -/
theorem gender_inference_amended (pid code : PyStr) :
    (Py.startsWith "MS".data code = true →
      CompScraper.determine_player_gender pid code = "male".data)
    ∧ (Py.startsWith "WS".data code = true →
      CompScraper.determine_player_gender pid code = "female".data)
    ∧ Comp.extract_gender_from_event_code "MS".data = some "M".data
    ∧ Comp.extract_gender_from_event_code "WS".data = some "W".data
    ∧ (code ≠ "MS".data → code ≠ "WS".data → code ≠ "MDI".data → code ≠ "WDI".data →
        code ≠ "XD".data → code ≠ "XDI".data →
        Comp.extract_gender_from_event_code code = none) := by
  refine ⟨?_, ?_, by decide, by decide, ?_⟩
  · intro h
    obtain ⟨r, rfl⟩ := Py.startsWith_pair h
    rfl
  · intro h
    obtain ⟨r, rfl⟩ := Py.startsWith_pair h
    rfl
  · intro h1 h2 h3 h4 h5 h6
    simp [Comp.extract_gender_from_event_code, h1, h2, h3, h4, h5, h6]

/-- C8 witness: the amended statement applied at event code `"MS1"`. -/
theorem gender_inference_amended_witness :
    CompScraper.determine_player_gender [] "MS1".data = "male".data
    ∧ Comp.extract_gender_from_event_code "MS1".data = none := by
  have h := gender_inference_amended [] "MS1".data
  exact ⟨h.1 (by decide),
    h.2.2.2.2 (by decide) (by decide) (by decide) (by decide) (by decide) (by decide)⟩

theorem compute_set_score_eq_countP (gs : List Master.Game) :
    Master.compute_set_score gs =
      (gs.countP (fun g => decide (g.x_points < g.a_points)),
       gs.countP (fun g => decide (g.a_points < g.x_points))) := by
  induction gs with
  | nil => rfl
  | cons g rest ih =>
      simp only [Master.compute_set_score, ih, List.countP_cons]
      rcases lt_trichotomy g.a_points g.x_points with h | h | h
      · simp [h, not_lt_of_gt h, GT.gt]
      · simp [h, lt_irrefl]
      · simp [h, not_lt_of_gt h, GT.gt]

/-- C3 counterexample: the claim says the side with strictly more games
won is designated winner, but for a row whose games string is `"11:0"`
(side A wins the only game) and whose player-id fields are empty,
`row_to_match` infers no winner: the source guards the inference with
`(a_id or x_id)`. -/
theorem winner_inference_cex :
    (Master.row_to_match { games_raw := "11:0".data }).winner_inferred = none
    ∧ (Master.compute_set_score (Master.parse_games "11:0".data)).1 = 1
    ∧ (Master.compute_set_score (Master.parse_games "11:0".data)).2 = 0 := by
  decide

/-- Specification-side count of games won by side A (used to compare
`compute_set_score` against the spec's wording). -/
def specGamesWonA (gs : List Master.Game) : ℕ :=
  gs.countP (fun g => decide (g.x_points < g.a_points))

/-- Specification-side count of games won by side X. -/
def specGamesWonX (gs : List Master.Game) : ℕ :=
  gs.countP (fun g => decide (g.a_points < g.x_points))

/-- C3 (amended): `compute_set_score` counts the games won by each
side, and `row_to_match` designates the side with strictly more games
won as the inferred winner provided at least one participant id is
present (a non-empty stripped `player_a_id` or a non-empty
`player_x_id`); a tie yields no inference, and so does a row with no
participant id even when one side won strictly more games. -/
theorem winner_inference_amended (row : Master.Row) :
    (Master.row_to_match row).games = Master.parse_games row.games_raw
    ∧ Master.compute_set_score (Master.parse_games row.games_raw) =
        (specGamesWonA (Master.parse_games row.games_raw),
         specGamesWonX (Master.parse_games row.games_raw))
    ∧ (Master.row_to_match row).final_sets =
        (specGamesWonA (Master.parse_games row.games_raw),
         specGamesWonX (Master.parse_games row.games_raw))
    ∧ (specGamesWonX (Master.parse_games row.games_raw) <
         specGamesWonA (Master.parse_games row.games_raw) →
       Py.strip row.player_a_id ≠ [] ∨ Py.strip row.player_x_id ≠ [] →
       (Master.row_to_match row).winner_inferred = some Master.Side.A)
    ∧ (specGamesWonA (Master.parse_games row.games_raw) <
         specGamesWonX (Master.parse_games row.games_raw) →
       Py.strip row.player_a_id ≠ [] ∨ Py.strip row.player_x_id ≠ [] →
       (Master.row_to_match row).winner_inferred = some Master.Side.X)
    ∧ (specGamesWonA (Master.parse_games row.games_raw) =
         specGamesWonX (Master.parse_games row.games_raw) →
       (Master.row_to_match row).winner_inferred = none)
    ∧ (Py.strip row.player_a_id = [] → Py.strip row.player_x_id = [] →
       (Master.row_to_match row).winner_inferred = none) := by
  have hcount : Master.compute_set_score (Master.parse_games row.games_raw) =
      (specGamesWonA (Master.parse_games row.games_raw),
       specGamesWonX (Master.parse_games row.games_raw)) := by
    rw [compute_set_score_eq_countP]; rfl
  have hw : (Master.row_to_match row).winner_inferred =
      (if specGamesWonA (Master.parse_games row.games_raw) ≠
            specGamesWonX (Master.parse_games row.games_raw)
          ∧ (Py.truthy (Py.orNone (Py.strip row.player_a_id)) = true
             ∨ Py.truthy (if row.player_x_id ≠ [] then some (Py.strip row.player_x_id)
                else none) = true) then
        some (if specGamesWonX (Master.parse_games row.games_raw) <
                specGamesWonA (Master.parse_games row.games_raw) then
          Master.Side.A else Master.Side.X)
       else none) := by
    show (if (Master.compute_set_score (Master.parse_games row.games_raw)).1 ≠
            (Master.compute_set_score (Master.parse_games row.games_raw)).2
          ∧ _ then _ else none) = _
    rw [hcount]
  have hpresent : Py.strip row.player_a_id ≠ [] ∨ Py.strip row.player_x_id ≠ [] →
      (Py.truthy (Py.orNone (Py.strip row.player_a_id)) = true
        ∨ Py.truthy (if row.player_x_id ≠ [] then some (Py.strip row.player_x_id)
           else none) = true) := by
    intro hid
    rcases hid with h | h
    · left
      simp [Py.orNone, Py.truthy, h]
    · right
      have hraw : row.player_x_id ≠ [] := fun hh => h (by rw [hh]; rfl)
      simp [hraw, Py.truthy, h]
  have hsets : (Master.row_to_match row).final_sets =
      (specGamesWonA (Master.parse_games row.games_raw),
       specGamesWonX (Master.parse_games row.games_raw)) := by
    show Master.compute_set_score (Master.parse_games row.games_raw) = _
    exact hcount
  refine ⟨rfl, hcount, hsets, ?_, ?_, ?_, ?_⟩
  · intro h hid
    rw [hw, if_pos ⟨Nat.ne_of_gt h, hpresent hid⟩, if_pos h]
  · intro h hid
    rw [hw, if_pos ⟨Nat.ne_of_lt h, hpresent hid⟩, if_neg (Nat.lt_asymm h)]
  · intro h
    rw [hw, if_neg]
    intro hcontra
    exact hcontra.1 h
  · intro h1 h2
    rw [hw, if_neg]
    intro hcontra
    rcases hcontra.2 with hc | hc
    · simp [Py.orNone, h1, Py.truthy] at hc
    · by_cases hx : row.player_x_id = []
      · simp [hx, Py.truthy] at hc
      · simp [hx, h2, Py.truthy] at hc

/-- C3 witness: the amended statement applied at a row with
`player_a_id = "1"` and games `"11:0 11:5"`, whose inferred winner is
side A. -/
theorem winner_inference_amended_witness :
    (Master.row_to_match
      { player_a_id := "1".data, games_raw := "11:0 11:5".data }).winner_inferred =
      some Master.Side.A := by
  exact (winner_inference_amended
    { player_a_id := "1".data, games_raw := "11:0 11:5".data }).2.2.2.1
    (by decide) (by decide)

/-- C4 counterexample: the claim says every fetch loop catches an
exception from a single request and continues, but a request error at
gameday 1 of the TTBL gameday discovery loop (which has no handler)
aborts the whole loop with that error. -/
theorem discover_match_ids_abort_cex :
    TTBL.discover_match_ids (fun _ => .error (.requestError "boom".data)) (fun _ => []) =
      .error (.requestError "boom".data) := by
  rfl

/-- C4 (amended): the per-match fetch loop of `scrape_ttbl_enhanced`
catches a failed fetch and continues with the remaining matches, but
the gameday discovery loop of the same script and
`master_scrape.fetch_fabrik_page` have no handler: a request error (or
a `raise_for_status` on an HTTP status of 400 or above) propagates to
the caller and aborts the run. -/
theorem fetch_error_handling_amended :
    (∀ (fetch : PyStr → Except PyErr TTBL.TMatchPayload) (mid : PyStr)
       (rest : List PyStr) (st : TTBL.TState) (e : PyErr), fetch mid = .error e →
       TTBL.processMatches fetch (mid :: rest) st = TTBL.processMatches fetch rest st)
    ∧ (∀ (fetchHtml : ℕ → Except PyErr PyStr) (extractIds : PyStr → List PyStr)
        (e : PyErr), fetchHtml 1 = .error e →
        TTBL.discover_match_ids fetchHtml extractIds = .error e)
    ∧ (∀ e : PyErr, Master.fetch_fabrik_page (.error e) = .error e)
    ∧ (∀ resp : Master.HttpResp, 400 ≤ resp.status →
        Master.fetch_fabrik_page (.ok resp) = .error (.httpError resp.status)) := by
  refine ⟨?_, ?_, ?_, ?_⟩
  · intro fetch mid rest st e h
    simp [TTBL.processMatches, h]
  · intro fetchHtml extractIds e h
    show (List.range' 1 18).foldlM _ [] = _
    rw [show List.range' 1 18 = 1 :: List.range' 2 17 from rfl, List.foldlM_cons]
    rw [h]
    rfl
  · intro e
    rfl
  · intro resp h
    have hstep : Master.fetch_fabrik_page (.ok resp) =
        (if 400 ≤ resp.status then Except.error (PyErr.httpError resp.status)
         else match resp.body with
           | none => Except.error PyErr.valueError
           | some j => pure (Master.page_rows j)) := rfl
    rw [hstep, if_pos h]

/-- C4 witness: the amended statement applied at a fetch that fails on
match id `"a"` (the match loop skips it) and at an HTTP 500 response
page (`fetch_fabrik_page` raises). -/
theorem fetch_error_handling_amended_witness :
    TTBL.processMatches (fun _ => .error PyErr.valueError) ["a".data] ⟨[], []⟩ =
      TTBL.processMatches (fun _ => .error PyErr.valueError) [] ⟨[], []⟩
    ∧ Master.fetch_fabrik_page (.ok ⟨500, some (.rows [])⟩) =
        .error (.httpError 500) := by
  exact ⟨fetch_error_handling_amended.1 _ "a".data [] ⟨[], []⟩ PyErr.valueError rfl,
    fetch_error_handling_amended.2.2.2 ⟨500, some (.rows [])⟩ (by decide)⟩

/-- An attempt outcome that `_request_with_retry` retries without raising:
a raised request exception, a 5xx status, or HTTP 429 whose `Retry-After`
header is absent or parses to a non-negative integer. -/
def WTTRest.isRetryable : WTTRest.Attempt → Bool
  | .netError => true
  | .resp r =>
      (decide (r.code = 429) &&
        (WTTRest.parseRetryAfter r.retryAfter).elim false (fun ra => decide (0 ≤ ra)))
      || (decide (500 ≤ r.code) && decide (r.code < 600))

/-- C5 counterexample: the claim says every HTTP 429 response is retried
with backoff, but when the `Retry-After` header holds an HTTP-date rather
than an integer count of seconds, `int()` raises a `ValueError` that the
`except requests.RequestException` clause does not catch: the call aborts
instead of retrying, even though the next attempt would have succeeded. -/
theorem request_with_retry_date_header_cex :
    WTTRest.request_with_retry
      [.resp ⟨429, some ("Wed, 21 Oct 2015 07:28:00 GMT".data), true, 0⟩,
       .resp ⟨200, none, true, 7⟩] = .error .valueError := by
  rfl

/-- C5 (amended): `_request_with_retry` retries with exponential backoff
on network errors, on HTTP 429 whose `Retry-After` header is absent
(defaulting to 5) or an integer, sleeping `retry_after * 2 ** attempt`,
and on 5xx responses, sleeping `2 ** attempt`; it returns `None`
immediately on 401/403/404 without consuming further attempts; it
returns the parsed payload on 200; and when every attempt in the
`max_retries` window is retryable it returns `None` after exhausting
them.  But a 429 response whose `Retry-After` header does not parse as
an integer makes the `ValueError` raised by `int()` escape the loop and
abort the call. -/
theorem request_with_retry_behavior :
    (∀ (attempts : List WTTRest.Attempt) (a : ℕ),
      (∀ x ∈ attempts, WTTRest.isRetryable x = true) →
      ∃ ws : List ℤ, WTTRest.reqRetry attempts a = .ok (none, ws))
    ∧ (∀ (r : WTTRest.Resp) (rest : List WTTRest.Attempt) (a : ℕ),
        r.code = 401 ∨ r.code = 403 ∨ r.code = 404 →
        WTTRest.reqRetry (.resp r :: rest) a = .ok (none, []))
    ∧ (∀ (r : WTTRest.Resp) (rest : List WTTRest.Attempt) (a : ℕ) (ra : ℤ),
        r.code = 429 → WTTRest.parseRetryAfter r.retryAfter = some ra → 0 ≤ ra →
        WTTRest.reqRetry (.resp r :: rest) a =
          (WTTRest.reqRetry rest (a + 1)).map
            (fun out => (out.1, ra * 2 ^ a :: out.2)))
    ∧ (∀ (r : WTTRest.Resp) (rest : List WTTRest.Attempt) (a : ℕ),
        r.code = 429 → WTTRest.parseRetryAfter r.retryAfter = none →
        WTTRest.reqRetry (.resp r :: rest) a = .error .valueError)
    ∧ (∀ (r : WTTRest.Resp) (rest : List WTTRest.Attempt) (a : ℕ),
        500 ≤ r.code → r.code < 600 →
        WTTRest.reqRetry (.resp r :: rest) a =
          (WTTRest.reqRetry rest (a + 1)).map
            (fun out => (out.1, (2 ^ a : ℤ) :: out.2)))
    ∧ (∀ (rest : List WTTRest.Attempt) (a : ℕ),
        WTTRest.reqRetry (.netError :: rest) a =
          (WTTRest.reqRetry rest (a + 1)).map
            (fun out => (out.1, (2 ^ a : ℤ) :: out.2)))
    ∧ (∀ (r : WTTRest.Resp) (rest : List WTTRest.Attempt) (a : ℕ),
        r.code = 200 → r.jsonOk = true →
        WTTRest.reqRetry (.resp r :: rest) a = .ok (some r.payload, []))
    ∧ (∀ a : ℕ, WTTRest.reqRetry [] a = .ok (none, [])) := by
  have h429 : ∀ (r : WTTRest.Resp) rest a (ra : ℤ), r.code = 429 →
      WTTRest.parseRetryAfter r.retryAfter = some ra → 0 ≤ ra →
      WTTRest.reqRetry (.resp r :: rest) a =
        (WTTRest.reqRetry rest (a + 1)).map
          (fun out => (out.1, ra * 2 ^ a :: out.2)) := by
    intro r rest a ra h hp hnn
    have hnlt : ¬ ra * 2 ^ a < 0 := not_lt.mpr (mul_nonneg hnn (by positivity))
    cases hrec : WTTRest.reqRetry rest (a + 1) with
    | ok out => simp [WTTRest.reqRetry, h, hp, hnlt, hrec, Except.map]
    | error e => simp [WTTRest.reqRetry, h, hp, hnlt, hrec, Except.map]
  have h5xx : ∀ (r : WTTRest.Resp) rest a, 500 ≤ r.code → r.code < 600 →
      WTTRest.reqRetry (.resp r :: rest) a =
        (WTTRest.reqRetry rest (a + 1)).map
          (fun out => (out.1, (2 ^ a : ℤ) :: out.2)) := by
    intro r rest a h1 h2
    have c1 : ¬ r.code = 429 := by omega
    have c2 : ¬ r.code = 200 := by omega
    have c3 : ¬ (r.code = 401 ∨ r.code = 403 ∨ r.code = 404) := by omega
    cases hrec : WTTRest.reqRetry rest (a + 1) with
    | ok out => simp [WTTRest.reqRetry, c1, c2, c3, h1, h2, hrec, Except.map]
    | error e => simp [WTTRest.reqRetry, c1, c2, c3, h1, h2, hrec, Except.map]
  have hnet : ∀ rest a,
      WTTRest.reqRetry (.netError :: rest) a =
        (WTTRest.reqRetry rest (a + 1)).map
          (fun out => (out.1, (2 ^ a : ℤ) :: out.2)) := by
    intro rest a
    cases hrec : WTTRest.reqRetry rest (a + 1) with
    | ok out => simp [WTTRest.reqRetry, hrec, Except.map]
    | error e => simp [WTTRest.reqRetry, hrec, Except.map]
  refine ⟨?_, ?_, h429, ?_, h5xx, hnet, ?_, ?_⟩
  · intro attempts
    induction attempts with
    | nil => intro a _; exact ⟨[], rfl⟩
    | cons x rest ih =>
        intro a hall
        have hrest : ∀ y ∈ rest, WTTRest.isRetryable y = true := by
          intro y hy; exact hall y (by simp [hy])
        obtain ⟨ws, hws⟩ := ih (a + 1) hrest
        match x with
        | .netError =>
            exact ⟨(2 ^ a : ℤ) :: ws, by simp [WTTRest.reqRetry, hws]⟩
        | .resp r =>
            have hr := hall (.resp r) (by simp)
            simp only [WTTRest.isRetryable, Bool.or_eq_true, Bool.and_eq_true,
              decide_eq_true_eq] at hr
            rcases hr with ⟨h, hra⟩ | ⟨h1, h2⟩
            · cases hp : WTTRest.parseRetryAfter r.retryAfter with
              | none => rw [hp] at hra; simp [Option.elim] at hra
              | some ra =>
                  rw [hp] at hra
                  simp only [Option.elim, decide_eq_true_eq] at hra
                  have hnlt : ¬ ra * 2 ^ a < 0 :=
                    not_lt.mpr (mul_nonneg hra (by positivity))
                  exact ⟨ra * 2 ^ a :: ws,
                    by simp [WTTRest.reqRetry, h, hp, hnlt, hws]⟩
            · have c1 : ¬ r.code = 429 := by omega
              have c2 : ¬ r.code = 200 := by omega
              have c3 : ¬ (r.code = 401 ∨ r.code = 403 ∨ r.code = 404) := by omega
              exact ⟨(2 ^ a : ℤ) :: ws,
                by simp [WTTRest.reqRetry, c1, c2, c3, h1, h2, hws]⟩
  · intro r rest a h
    have c1 : ¬ r.code = 429 := by omega
    have c2 : ¬ r.code = 200 := by omega
    simp [WTTRest.reqRetry, c1, c2, h]
  · intro r rest a h hp
    simp [WTTRest.reqRetry, h, hp]
  · intro r rest a h hj
    simp [WTTRest.reqRetry, h, hj]
  · intro a
    rfl

/-- C5 witness: the amended behaviour applied at concrete inputs: a
three-attempt window (500, network error, 429 with `Retry-After: 7`)
exhausts the retries and returns `None`; a single 404 is terminal at
once; and a 429 whose `Retry-After` header is an HTTP-date aborts with
`ValueError`. -/
theorem request_with_retry_behavior_witness :
    (∃ ws : List ℤ, WTTRest.reqRetry
        [.resp ⟨500, none, true, 0⟩, .netError, .resp ⟨429, some ("7".data), true, 0⟩] 0 =
        .ok (none, ws))
    ∧ WTTRest.reqRetry [.resp ⟨404, none, true, 0⟩, .netError] 0 = .ok (none, [])
    ∧ WTTRest.reqRetry
        [.resp ⟨429, some ("Wed, 21 Oct 2015 07:28:00 GMT".data), true, 0⟩] 0 =
        .error .valueError := by
  refine ⟨request_with_retry_behavior.1 _ 0 (by decide),
    request_with_retry_behavior.2.1 ⟨404, none, true, 0⟩ [.netError] 0 (by decide),
    request_with_retry_behavior.2.2.2.1
      ⟨429, some ("Wed, 21 Oct 2015 07:28:00 GMT".data), true, 0⟩ [] 0 rfl (by decide)⟩

theorem lookupA_setA_self {β : Type} (m : List (PyStr × β)) (k : PyStr) (v : β) :
    lookupA (setA m k v) k = some v := by
  induction m with
  | nil => simp [setA, lookupA]
  | cons e rest ih =>
      obtain ⟨k0, v0⟩ := e
      by_cases h : k0 = k
      · simp [setA, h, lookupA]
      · simp [setA, h, lookupA, ih]

theorem lookupA_setA_ne {β : Type} (m : List (PyStr × β)) (k k' : PyStr) (v : β)
    (h : k' ≠ k) : lookupA (setA m k v) k' = lookupA m k' := by
  induction m with
  | nil =>
      simp only [setA, lookupA]
      rw [if_neg (fun hh => h hh.symm)]
  | cons e rest ih =>
      obtain ⟨k0, v0⟩ := e
      by_cases h0 : k0 = k
      · subst h0
        simp only [setA, if_pos rfl, lookupA]
        rw [if_neg (fun hh => h hh.symm), if_neg (fun hh => h hh.symm)]
      · simp only [setA, if_neg h0, lookupA]
        by_cases h1 : k0 = k'
        · rw [if_pos h1, if_pos h1]
        · rw [if_neg h1, if_neg h1, ih]

theorem unique_players_lookup (ps : List TTBL.PRec) (k : PyStr) :
    lookupA (TTBL.unique_players ps) k =
      ps.find? (fun p => Py.truthy p.id && p.id.getD [] = k) := by
  suffices h : ∀ (m : List (PyStr × TTBL.PRec)),
      lookupA (ps.foldl TTBL.uniqueStep m) k =
        match lookupA m k with
        | some v => some v
        | none => ps.find? (fun p => Py.truthy p.id && p.id.getD [] = k) by
    have := h []
    simpa [TTBL.unique_players, lookupA] using this
  induction ps with
  | nil =>
      intro m
      match h0 : lookupA m k with
      | some v => simp [h0]
      | none => simp [h0, List.find?]
  | cons p rest ih =>
      intro m
      rw [List.foldl_cons, ih]
      by_cases hc : Py.truthy p.id = true ∧ (lookupA m (p.id.getD [])).isNone = true
      · by_cases hk : p.id.getD [] = k
        · have hmk : lookupA m k = none := by
            rw [← hk]
            exact Option.isNone_iff_eq_none.mp hc.2
          simp [TTBL.uniqueStep, if_pos hc, hk, lookupA_setA_self, hmk,
            List.find?, hc.1]
        · simp only [TTBL.uniqueStep, if_pos hc, lookupA_setA_ne _ _ _ _ (fun hh => hk hh.symm)]
          match h0 : lookupA m k with
          | some v => simp
          | none =>
              simp only [List.find?]
              have : (Py.truthy p.id && decide (p.id.getD [] = k)) = false := by
                simp [hk]
              rw [this]
      · simp only [TTBL.uniqueStep, if_neg hc]
        match h0 : lookupA m k with
        | some v => simp
        | none =>
            simp only [List.find?]
            have : (Py.truthy p.id && decide (p.id.getD [] = k)) = false := by
              rcases not_and_or.mp hc with h | h
              · have hb : Py.truthy p.id = false := by simpa using h
                simp [hb]
              · cases hopt : lookupA m (p.id.getD []) with
                | none => exact absurd (by simp [hopt]) h
                | some v =>
                    by_cases hk : p.id.getD [] = k
                    · rw [hk, h0] at hopt
                      exact absurd hopt (by simp)
                    · simp [hk]
            rw [this]

/-- The two insertion slots `extract_player_ids` processes per match,
in order: player A (inserted whenever the id is not yet a key) and the
opponent (whose id must additionally be truthy). -/
def fabrikSlots (m : Fabrik.FMatch) : List (Bool × PyStr × PyStr) :=
  [(true, m.player_id, m.player_name),
   (Py.truthy m.opponent_id, m.opponent_id.getD [], m.opponent_name)]

/-- One guarded insert-if-absent. -/
def slotStep (m : List (PyStr × PyStr)) (s : Bool × PyStr × PyStr) :
    List (PyStr × PyStr) :=
  if s.1 = true ∧ (lookupA m s.2.1).isNone = true then setA m s.2.1 s.2.2 else m

theorem extractPlayersStep_eq_slots (m : List (PyStr × PyStr)) (mt : Fabrik.FMatch) :
    Fabrik.extractPlayersStep m mt = (fabrikSlots mt).foldl slotStep m := by
  simp only [Fabrik.extractPlayersStep, fabrikSlots, List.foldl_cons, List.foldl_nil,
    slotStep, true_and]

theorem slotStep_foldl_lookup (slots : List (Bool × PyStr × PyStr)) (k : PyStr) :
    ∀ m : List (PyStr × PyStr),
      lookupA (slots.foldl slotStep m) k =
        match lookupA m k with
        | some v => some v
        | none => (slots.find? (fun s => s.1 && decide (s.2.1 = k))).map (fun s => s.2.2) := by
  induction slots with
  | nil =>
      intro m
      match h0 : lookupA m k with
      | some v => simp [h0]
      | none => simp [h0, List.find?]
  | cons s rest ih =>
      intro m
      rw [List.foldl_cons, ih]
      by_cases hc : s.1 = true ∧ (lookupA m s.2.1).isNone = true
      · by_cases hk : s.2.1 = k
        · have hmk : lookupA m k = none := by
            rw [← hk]
            exact Option.isNone_iff_eq_none.mp hc.2
          simp [slotStep, if_pos hc, hk, lookupA_setA_self, hmk, List.find?, hc.1]
        · simp only [slotStep, if_pos hc, lookupA_setA_ne _ _ _ _ (fun hh => hk hh.symm)]
          match h0 : lookupA m k with
          | some v => simp
          | none =>
              simp only [List.find?]
              have : (s.1 && decide (s.2.1 = k)) = false := by simp [hk]
              rw [this]
      · simp only [slotStep, if_neg hc]
        match h0 : lookupA m k with
        | some v => simp
        | none =>
            simp only [List.find?]
            have : (s.1 && decide (s.2.1 = k)) = false := by
              rcases not_and_or.mp hc with h | h
              · have hb : s.1 = false := by simpa using h
                simp [hb]
              · cases hopt : lookupA m s.2.1 with
                | none => exact absurd (by simp [hopt]) h
                | some v =>
                    by_cases hk : s.2.1 = k
                    · rw [hk, h0] at hopt
                      exact absurd hopt (by simp)
                    · simp [hk]
            rw [this]

theorem extract_player_ids_lookup (ms : List Fabrik.FMatch) (k : PyStr) :
    lookupA (Fabrik.extract_player_ids ms) k =
      (((ms.map fabrikSlots).flatten).find?
        (fun s => s.1 && decide (s.2.1 = k))).map (fun s => s.2.2) := by
  have hfold : ∀ m : List (PyStr × PyStr),
      ms.foldl Fabrik.extractPlayersStep m = ((ms.map fabrikSlots).flatten).foldl slotStep m := by
    induction ms with
    | nil => intro m; rfl
    | cons mt rest ih =>
        intro m
        rw [List.foldl_cons, ih, extractPlayersStep_eq_slots]
        simp [List.foldl_append]
    
  rw [Fabrik.extract_player_ids, hfold, slotStep_foldl_lookup]
  simp [lookupA]

theorem upsert_player_preserves (players : List (PyStr × Master.PlayerRec))
    (pid : PyStr) (name assoc : Option PyStr) (now : ℕ) (r : Master.PlayerRec)
    (hpid : pid ≠ []) (h : lookupA players pid = some r) :
    ∃ r', lookupA (Master.upsert_player players (some pid) name assoc now) pid = some r'
      ∧ (Py.truthy r.full_name = true →
          r'.first_name = r.first_name ∧ r'.last_name = r.last_name
            ∧ r'.full_name = r.full_name)
      ∧ (Py.truthy r.nationality = true → r'.nationality = r.nationality) := by
  simp only [Master.upsert_player, h]
  rw [if_neg hpid]
  refine ⟨_, lookupA_setA_self _ _ _, ?_, ?_⟩
  · intro hf
    have hc2 : ¬ (Py.truthy name = true ∧ ¬Py.truthy r.full_name = true) :=
      fun hc => hc.2 hf
    by_cases c1 : Py.truthy assoc = true ∧ ¬Py.truthy r.nationality = true
    · simp only [if_pos c1, if_neg hc2]
      split_ifs <;> simp
    · simp only [if_neg c1, if_neg hc2]
      split_ifs <;> simp
  · intro hn
    have c1 : ¬ (Py.truthy assoc = true ∧ ¬Py.truthy r.nationality = true) :=
      fun hc => hc.2 hn
    simp only [if_neg c1]
    split_ifs <;> simp

/-- Test fixture: a TTBL player entry with id `p1`. -/
def cexPA : TTBL.PRec :=
  { id := some "p1".data, firstName := some "Alice".data, lastName := none,
    imageUrl := none, matchId := "m1".data }

/-- Test fixture: a later entry with the same id but different data. -/
def cexPB : TTBL.PRec :=
  { cexPA with firstName := some "Bob".data, matchId := "m2".data }

/-- Test fixture: an existing master player record with truthy name and
nationality. -/
def cexRec : Master.PlayerRec :=
  { ittf_id := "1".data, first_name := some "A".data, last_name := some "B".data,
    full_name := some "A B".data, nationality := some "GER".data,
    matches_played := 0, wins := 0, losses := 0, sources := [], last_seen := 0 }

/-- C7 counterexample: the claim says the record retained for a
duplicated id is the one from the last occurrence, but the
`unique_players` mapping keeps the first: two entries with id `p1`
leave the first entry in the map. -/
theorem unique_players_last_write_cex :
    TTBL.unique_players [cexPA, cexPB] = [("p1".data, cexPA)] ∧ cexPA ≠ cexPB := by
  decide

/-- C7 (amended): for a duplicated identifier the record retained is
the one from the FIRST occurrence: the `unique_players` mapping of
`scrape_ttbl_enhanced` and `extract_player_ids` of
`fabrik_match_scraper` resolve a key to the first matching occurrence
(`find?` over the input order), and `master_scrape.upsert_player`
never overwrites an already-truthy `full_name`/`first_name`/`last_name`
or `nationality` of an existing record. -/
theorem dedup_first_write_wins :
    (∀ (ps : List TTBL.PRec) (k : PyStr),
      lookupA (TTBL.unique_players ps) k =
        ps.find? (fun p => Py.truthy p.id && p.id.getD [] = k))
    ∧ (∀ (ms : List Fabrik.FMatch) (k : PyStr),
        lookupA (Fabrik.extract_player_ids ms) k =
          (((ms.map fabrikSlots).flatten).find?
            (fun s => s.1 && decide (s.2.1 = k))).map (fun s => s.2.2))
    ∧ (∀ (players : List (PyStr × Master.PlayerRec)) (pid : PyStr)
        (name assoc : Option PyStr) (now : ℕ) (r : Master.PlayerRec),
        pid ≠ [] → lookupA players pid = some r →
        ∃ r', lookupA (Master.upsert_player players (some pid) name assoc now) pid =
            some r'
          ∧ (Py.truthy r.full_name = true →
              r'.first_name = r.first_name ∧ r'.last_name = r.last_name
                ∧ r'.full_name = r.full_name)
          ∧ (Py.truthy r.nationality = true → r'.nationality = r.nationality)) :=
  ⟨unique_players_lookup, extract_player_ids_lookup,
   fun players pid name assoc now r h1 h2 =>
     upsert_player_preserves players pid name assoc now r h1 h2⟩

/-- C7 witness: the amended statement applied at the two-entry `p1`
list and at an upsert of a record whose name and nationality are
already set. -/
theorem dedup_first_write_wins_witness :
    lookupA (TTBL.unique_players [cexPA, cexPB]) "p1".data =
      [cexPA, cexPB].find? (fun p => Py.truthy p.id && p.id.getD [] = "p1".data)
    ∧ (∃ r', lookupA (Master.upsert_player [("1".data, cexRec)] (some "1".data)
          (some "NEW NAME".data) (some "USA".data) 5) "1".data = some r'
        ∧ (Py.truthy cexRec.full_name = true →
            r'.first_name = cexRec.first_name ∧ r'.last_name = cexRec.last_name
              ∧ r'.full_name = cexRec.full_name)
        ∧ (Py.truthy cexRec.nationality = true →
            r'.nationality = cexRec.nationality)) :=
  ⟨dedup_first_write_wins.1 [cexPA, cexPB] "p1".data,
   dedup_first_write_wins.2.2 [("1".data, cexRec)] "1".data (some "NEW NAME".data)
     (some "USA".data) 5 cexRec (by decide) (by decide)⟩

/-- C10: whenever `scrape_matches_by_year` returns at least one match,
`discover_players_from_matches` raises an uncaught `AttributeError` on
the first match processed: the inner loop reads `player_a_id` via
`getattr`, an attribute the `Match` class never defines (it has only
`player_id`/`opponent_id`), so the discovery step never completes on
non-empty match data. -/
theorem discover_players_attribute_error (rowsOf : ℕ → List Master.Row)
    (y : ℕ) (ys : List ℕ)
    (h : Comp.scrape_matches_by_year (rowsOf y) 200 ≠ []) :
    Comp.discover_players_from_matches rowsOf (y :: ys) =
      .error (.attributeError "player_a_id".data) := by
  obtain ⟨m, ms, hms⟩ := List.exists_cons_of_ne_nil h
  have hmatch : ∀ (st : Comp.DiscoverState),
      Comp.discoverMatch st m = Except.error (PyErr.attributeError "player_a_id".data) :=
    fun st => rfl
  unfold Comp.discover_players_from_matches
  rw [List.foldlM_cons, hms, List.foldlM_cons, hmatch]
  rfl

set_option maxRecDepth 10000 in
/-- C10 witness: a one-row Fabrik page for year 2025 makes
`scrape_matches_by_year` non-empty and discovery error out. -/
theorem discover_players_attribute_error_witness :
    Comp.discover_players_from_matches (fun _ => [{ id := "1".data }]) [2025] =
      .error (.attributeError "player_a_id".data) :=
  discover_players_attribute_error (fun _ => [{ id := "1".data }]) 2025 []
    (by decide)

theorem dedupPage_seen (rows : List Master.Row) :
    ∀ seen, (Master.dedupPage rows seen).2.1 =
      seen ++ ((Master.dedupPage rows seen).1.map (fun r => Py.strip r.id)) := by
  induction rows with
  | nil => intro seen; simp [Master.dedupPage]
  | cons row rest ih =>
      intro seen
      by_cases h1 : Py.strip row.id = []
      · simp [Master.dedupPage, h1, ih]
      · by_cases h2 : Py.strip row.id ∈ seen
        · simp [Master.dedupPage, h1, h2, ih]
        · simp only [Master.dedupPage, if_neg h1, if_neg h2]
          rw [ih (seen ++ [Py.strip row.id])]
          simp

theorem dedupPage_nodup (rows : List Master.Row) :
    ∀ seen, (((Master.dedupPage rows seen).1.map (fun r => Py.strip r.id)).Nodup)
      ∧ ∀ x ∈ (Master.dedupPage rows seen).1.map (fun r => Py.strip r.id), x ∉ seen := by
  induction rows with
  | nil => intro seen; simp [Master.dedupPage]
  | cons row rest ih =>
      intro seen
      by_cases h1 : Py.strip row.id = []
      · simpa [Master.dedupPage, h1] using ih seen
      · by_cases h2 : Py.strip row.id ∈ seen
        · simpa [Master.dedupPage, h1, h2] using ih seen
        · obtain ⟨ihn, ihs⟩ := ih (seen ++ [Py.strip row.id])
          simp only [Master.dedupPage, if_neg h1, if_neg h2, List.map_cons]
          constructor
          · rw [List.nodup_cons]
            refine ⟨fun hmem => ?_, ihn⟩
            exact (ihs _ hmem) (by simp)
          · intro x hx
            rcases List.mem_cons.mp hx with rfl | hx'
            · exact h2
            · intro hmem
              exact (ihs x hx') (by simp [hmem])

theorem iterAux_step_cont (pageAt : ℕ → List Master.Row) (ps f offset : ℕ)
    (seen : List PyStr) (st : ℕ) (h1 : pageAt offset ≠ [])
    (h2 : ¬ 2 ≤ (if (Master.dedupPage (pageAt offset) seen).2.2 = 0 then st + 1 else 0)) :
    Master.iterAux pageAt ps (f + 1) offset seen st =
      ((Master.dedupPage (pageAt offset) seen).1 ++
        (Master.iterAux pageAt ps f (offset + ps)
          (Master.dedupPage (pageAt offset) seen).2.1
          (if (Master.dedupPage (pageAt offset) seen).2.2 = 0 then st + 1 else 0)).1,
       offset :: (Master.iterAux pageAt ps f (offset + ps)
          (Master.dedupPage (pageAt offset) seen).2.1
          (if (Master.dedupPage (pageAt offset) seen).2.2 = 0 then st + 1 else 0)).2) := by
  simp only [Master.iterAux, if_neg h1, if_neg h2]

theorem iterAux_step_stop (pageAt : ℕ → List Master.Row) (ps f offset : ℕ)
    (seen : List PyStr) (st : ℕ) (h1 : pageAt offset ≠ [])
    (h2 : 2 ≤ (if (Master.dedupPage (pageAt offset) seen).2.2 = 0 then st + 1 else 0)) :
    Master.iterAux pageAt ps (f + 1) offset seen st =
      ((Master.dedupPage (pageAt offset) seen).1, [offset]) := by
  simp only [Master.iterAux, if_neg h1, if_pos h2]

theorem iterAux_offsets (pageAt : ℕ → List Master.Row) (ps : ℕ) :
    ∀ (fuel offset : ℕ) (seen : List PyStr) (st : ℕ), ∃ k,
      (Master.iterAux pageAt ps fuel offset seen st).2 =
        (List.range k).map (fun i => offset + i * ps) := by
  intro fuel
  induction fuel with
  | zero => intro offset seen st; exact ⟨0, by simp [Master.iterAux]⟩
  | succ f ih =>
      intro offset seen st
      by_cases h1 : pageAt offset = []
      · refine ⟨1, ?_⟩
        rw [show List.range 1 = [0] from rfl]
        simp [Master.iterAux, h1]
      · by_cases h2 : 2 ≤ (if (Master.dedupPage (pageAt offset) seen).2.2 = 0
            then st + 1 else 0)
        · refine ⟨1, ?_⟩
          rw [iterAux_step_stop pageAt ps f offset seen st h1 h2,
            show List.range 1 = [0] from rfl]
          simp
        · obtain ⟨k, hk⟩ := ih (offset + ps) (Master.dedupPage (pageAt offset) seen).2.1
            (if (Master.dedupPage (pageAt offset) seen).2.2 = 0 then st + 1 else 0)
          refine ⟨k + 1, ?_⟩
          rw [iterAux_step_cont pageAt ps f offset seen st h1 h2]
          simp only []
          rw [hk, List.range_succ_eq_map]
          simp only [List.map_cons, List.map_map]
          refine List.cons_eq_cons.mpr ⟨by simp, ?_⟩
          apply List.map_congr_left
          intro i _
          simp only [Function.comp_apply, Nat.succ_eq_add_one]
          ring

theorem iterAux_nodup (pageAt : ℕ → List Master.Row) (ps : ℕ) :
    ∀ (fuel offset : ℕ) (seen : List PyStr) (st : ℕ),
      (((Master.iterAux pageAt ps fuel offset seen st).1.map
          (fun r => Py.strip r.id)).Nodup)
      ∧ ∀ x ∈ (Master.iterAux pageAt ps fuel offset seen st).1.map
          (fun r => Py.strip r.id), x ∉ seen := by
  intro fuel
  induction fuel with
  | zero => intro offset seen st; simp [Master.iterAux]
  | succ f ih =>
      intro offset seen st
      by_cases h1 : pageAt offset = []
      · simp [Master.iterAux, h1]
      · have hd := dedupPage_nodup (pageAt offset) seen
        by_cases h2 : 2 ≤ (if (Master.dedupPage (pageAt offset) seen).2.2 = 0
            then st + 1 else 0)
        · rw [iterAux_step_stop pageAt ps f offset seen st h1 h2]
          exact hd
        · have hrec := ih (offset + ps) (Master.dedupPage (pageAt offset) seen).2.1
            (if (Master.dedupPage (pageAt offset) seen).2.2 = 0 then st + 1 else 0)
          rw [iterAux_step_cont pageAt ps f offset seen st h1 h2]
          simp only [List.map_append]
          have hseen := dedupPage_seen (pageAt offset) seen
          constructor
          · rw [List.nodup_append]
            refine ⟨hd.1, hrec.1, ?_⟩
            intro x hx1 hx2
            have := hrec.2 x hx2
            rw [hseen] at this
            exact this (by simp [hx1])
          · intro x hx
            rcases List.mem_append.mp hx with hx' | hx'
            · exact hd.2 x hx'
            · have := hrec.2 x hx'
              rw [hseen] at this
              intro hmem
              exact this (by simp [hmem])

theorem iterAux_empty_stop (pageAt : ℕ → List Master.Row) (ps fuel offset : ℕ)
    (seen : List PyStr) (st : ℕ) (hf : 0 < fuel) (h : pageAt offset = []) :
    Master.iterAux pageAt ps fuel offset seen st = ([], [offset]) := by
  match fuel, hf with
  | f + 1, _ => simp [Master.iterAux, h]

theorem iterAux_stagnant_stop (pageAt : ℕ → List Master.Row) (ps fuel offset : ℕ)
    (seen : List PyStr) (hf : 2 ≤ fuel)
    (h1 : pageAt offset ≠ [])
    (hc1 : (Master.dedupPage (pageAt offset) seen).2.2 = 0)
    (h2 : pageAt (offset + ps) ≠ [])
    (hc2 : (Master.dedupPage (pageAt (offset + ps))
        (Master.dedupPage (pageAt offset) seen).2.1).2.2 = 0) :
    (Master.iterAux pageAt ps fuel offset seen 0).2 = [offset, offset + ps] := by
  obtain ⟨f, rfl⟩ : ∃ f, fuel = f + 2 := ⟨fuel - 2, by omega⟩
  rw [show f + 2 = (f + 1) + 1 from rfl,
    iterAux_step_cont pageAt ps (f + 1) offset seen 0 h1 (by rw [if_pos hc1]; omega)]
  rw [if_pos hc1]
  rw [iterAux_step_stop pageAt ps f (offset + ps) _ 1 h2 (by rw [if_pos hc2])]

/-- C6 counterexample: the claim says every paginated fetch loop
de-duplicates rows by the source match identifier and requests strictly
increasing offsets, but `FabrikMatchScraper.scrape_year` (which never
passes an offset) returns the same single-row page twice when
`max_matches = 2`: the output repeats the match with id `m1`. -/
theorem scrape_year_duplicates_cex :
    (Fabrik.scrape_year 0 [{ id := "m1".data }] 2).map (fun m => m.match_id) =
      ["m1".data, "m1".data]
    ∧ ¬ ((Fabrik.scrape_year 0 [{ id := "m1".data }] 2).map
        (fun m => m.match_id)).Nodup := by
  decide

/-- C6 (amended): only `master_scrape.iter_fabrik_matches` implements
the claimed pattern — its requested offsets are strictly increasing
(page size times page index), it stops on an empty page or after two
consecutive pages yielding no new match id, and the stripped match ids
it yields are pairwise distinct.  The loops of
`fabrik_match_scraper.scrape_year` and
`comprehensive_collector.scrape_matches_by_year` never pass an offset:
every iteration appends the conversion of the same fetched page, so a
single-row page with `max_matches = 2` is emitted twice with no
de-duplication. -/
theorem pagination_loops_amended :
    (∀ (pageAt : ℕ → List Master.Row) (ps mp : ℕ), 0 < ps →
      ((Master.iter_fabrik_matches pageAt ps mp).2).Pairwise (· < ·))
    ∧ (∀ (pageAt : ℕ → List Master.Row) (ps mp : ℕ), 0 < mp → pageAt 0 = [] →
        Master.iter_fabrik_matches pageAt ps mp = ([], [0]))
    ∧ (∀ (pageAt : ℕ → List Master.Row) (ps fuel offset : ℕ) (seen : List PyStr),
        2 ≤ fuel → pageAt offset ≠ [] →
        (Master.dedupPage (pageAt offset) seen).2.2 = 0 →
        pageAt (offset + ps) ≠ [] →
        (Master.dedupPage (pageAt (offset + ps))
          (Master.dedupPage (pageAt offset) seen).2.1).2.2 = 0 →
        (Master.iterAux pageAt ps fuel offset seen 0).2 = [offset, offset + ps])
    ∧ (∀ (pageAt : ℕ → List Master.Row) (ps mp : ℕ),
        (((Master.iter_fabrik_matches pageAt ps mp).1.map
          (fun r => Py.strip r.id)).Nodup))
    ∧ (∀ (now : ℕ) (row : Master.Row),
        Fabrik.scrape_year now [row] 2 =
          [Fabrik.row_to_fmatch now row, Fabrik.row_to_fmatch now row])
    ∧ (∀ row : Master.Row,
        Comp.scrape_matches_by_year [row] 2 =
          [Comp.row_to_cmatch row, Comp.row_to_cmatch row]) := by
  refine ⟨?_, ?_, ?_, ?_, ?_, ?_⟩
  · intro pageAt ps mp hps
    obtain ⟨k, hk⟩ := iterAux_offsets pageAt ps mp 0 [] 0
    rw [Master.iter_fabrik_matches, hk]
    refine List.Pairwise.map _ ?_ (List.pairwise_lt_range k)
    intro a b hab
    have : a * ps < b * ps := (Nat.mul_lt_mul_right hps).mpr hab
    omega
  · intro pageAt ps mp hmp h0
    exact iterAux_empty_stop pageAt ps mp 0 [] 0 hmp h0
  · intro pageAt ps fuel offset seen hf h1 hc1 h2 hc2
    exact iterAux_stagnant_stop pageAt ps fuel offset seen hf h1 hc1 h2 hc2
  · intro pageAt ps mp
    exact (iterAux_nodup pageAt ps mp 0 [] 0).1
  · intro now row
    rfl
  · intro row
    rfl

/-- C6 witness: the amended statement applied at an always-empty page
source (one request at offset 0, nothing yielded) and at a constant
single-row page source (strictly increasing offsets). -/
theorem pagination_loops_amended_witness :
    Master.iter_fabrik_matches (fun _ => []) 500 500 = ([], [0])
    ∧ ((Master.iter_fabrik_matches (fun _ => [{ id := "m1".data }]) 500 500).2).Pairwise
        (· < ·) :=
  ⟨pagination_loops_amended.2.1 (fun _ => []) 500 500 (by decide) rfl,
   pagination_loops_amended.1 (fun _ => [{ id := "m1".data }]) 500 500 (by decide)⟩

/-- The per-record accounting invariant of the TTBL stats map. -/
def StatsInv (m : List (PyStr × TTBL.TStats)) : Prop :=
  ∀ e ∈ m, e.2.wins + e.2.losses = e.2.gamesPlayed

theorem mem_setA {β : Type} {m : List (PyStr × β)} {k : PyStr} {v : β} {e : PyStr × β}
    (h : e ∈ setA m k v) : e = (k, v) ∨ e ∈ m := by
  induction m with
  | nil => simpa [setA] using h
  | cons p rest ih =>
      obtain ⟨k0, v0⟩ := p
      simp only [setA] at h
      by_cases h0 : k0 = k
      · rw [if_pos h0] at h
        rcases List.mem_cons.mp h with rfl | h'
        · exact Or.inl (by rw [h0])
        · exact Or.inr (List.mem_cons_of_mem _ h')
      · rw [if_neg h0] at h
        rcases List.mem_cons.mp h with rfl | h'
        · exact Or.inr (List.mem_cons_self _ _)
        · rcases ih h' with h'' | h''
          · exact Or.inl h''
          · exact Or.inr (List.mem_cons_of_mem _ h'')

theorem lookupA_mem {β : Type} {m : List (PyStr × β)} {k : PyStr} {v : β}
    (h : lookupA m k = some v) : (k, v) ∈ m := by
  induction m with
  | nil => simp [lookupA] at h
  | cons p rest ih =>
      obtain ⟨k0, v0⟩ := p
      simp only [lookupA] at h
      by_cases h0 : k0 = k
      · rw [if_pos h0] at h
        subst h0
        injection h with h
        subst h
        exact List.mem_cons_self _ _
      · rw [if_neg h0] at h
        exact List.mem_cons_of_mem _ (ih h)

theorem statsInv_update {m : List (PyStr × TTBL.TStats)} (pid name mid : PyStr)
    (won : Bool) (h : StatsInv m) : StatsInv (TTBL.updatePlayerStats m pid name mid won) := by
  intro e he
  rcases mem_setA he with rfl | he'
  · have hbase : ((lookupA m pid).getD (TTBL.statsInit pid name mid)).wins +
        ((lookupA m pid).getD (TTBL.statsInit pid name mid)).losses =
        ((lookupA m pid).getD (TTBL.statsInit pid name mid)).gamesPlayed := by
      cases hl : lookupA m pid with
      | none => simp [TTBL.statsInit]
      | some r => simpa using h (pid, r) (lookupA_mem hl)
    simp only [TTBL.bumpStats]
    cases won <;> simp <;> omega
  · exact h e he'

theorem statsInv_processGame (mid gday : PyStr) (ts : ℤ) (st : TTBL.TState)
    (g : TTBL.TGame) (h : StatsInv st.stats) :
    StatsInv (TTBL.processGame mid gday ts st g).stats := by
  simp only [TTBL.processGame]
  split_ifs <;>
    first
      | exact h
      | exact statsInv_update _ _ _ _ h
      | exact statsInv_update _ _ _ _ (statsInv_update _ _ _ _ h)

theorem statsInv_processMatch (st : TTBL.TState) (mid : PyStr)
    (p : TTBL.TMatchPayload) (h : StatsInv st.stats) :
    StatsInv (TTBL.processMatch st mid p).stats := by
  rw [TTBL.processMatch]
  generalize hgs : p.games = gs
  clear hgs
  induction gs generalizing st with
  | nil => exact h
  | cons g rest ih =>
      rw [List.foldl_cons]
      exact ih _ (statsInv_processGame _ _ _ _ _ h)

theorem statsInv_processMatches (fetch : PyStr → Except PyErr TTBL.TMatchPayload)
    (ids : List PyStr) :
    ∀ (st : TTBL.TState), StatsInv st.stats →
      StatsInv (TTBL.processMatches fetch ids st).stats := by
  induction ids with
  | nil => intro st h; exact h
  | cons mid rest ih =>
      intro st h
      simp only [TTBL.processMatches]
      cases fetch mid with
      | error e => exact ih st h
      | ok p => exact ih _ (statsInv_processMatch st mid p h)

theorem natLog2F_eq : ∀ (fuel n : ℕ), n ≤ fuel → TTBL.natLog2F fuel n = Nat.log2 n
  | 0, n, hn => by
      have h0 : n = 0 := Nat.le_zero.mp hn
      subst h0
      simp [TTBL.natLog2F, Nat.log2]
  | fuel + 1, n, hn => by
      by_cases h1 : n ≤ 1
      · rw [show TTBL.natLog2F (fuel + 1) n = if n ≤ 1 then 0
            else TTBL.natLog2F fuel (n / 2) + 1 from rfl, if_pos h1]
        rw [Nat.log2]
        rw [if_neg (by omega)]
      · have h2 : n / 2 ≤ fuel := by
          have := Nat.div_lt_self (by omega : 0 < n) (by omega : 1 < 2)
          omega
        rw [show TTBL.natLog2F (fuel + 1) n = if n ≤ 1 then 0
            else TTBL.natLog2F fuel (n / 2) + 1 from rfl, if_neg h1]
        rw [natLog2F_eq fuel (n / 2) h2]
        conv_rhs => rw [Nat.log2]
        rw [if_pos (by omega)]

theorem natLog2_eq (n : ℕ) : TTBL.natLog2 n = Nat.log2 n :=
  natLog2F_eq n n le_rfl

theorem rneN_le (n d K : ℕ) (hd : 0 < d) (h : n ≤ K * d) : TTBL.rneN n d ≤ K := by
  have h2 : n ≤ d * K := by rw [Nat.mul_comm]; exact h
  have hdm : d * (n / d) + n % d = n := Nat.div_add_mod n d
  have hmod : n % d < d := Nat.mod_lt n hd
  have hdiv : n / d ≤ K := by
    by_contra hc
    have h5 : K + 1 ≤ n / d := by omega
    have h6 : d * (K + 1) ≤ d * (n / d) := Nat.mul_le_mul_left d h5
    have h7 : d * (K + 1) = d * K + d := by ring
    omega
  rw [show TTBL.rneN n d =
      (if 2 * (n % d) < d then n / d
       else if d < 2 * (n % d) then n / d + 1
       else if (n / d) % 2 = 0 then n / d else n / d + 1) from rfl]
  split_ifs with hb1 hb2 hb3
  · exact hdiv
  · by_contra hc
    have h5 : K ≤ n / d := by omega
    have h6 : d * K ≤ d * (n / d) := Nat.mul_le_mul_left d h5
    omega
  · exact hdiv
  · by_contra hc
    have h5 : K ≤ n / d := by omega
    have h6 : d * K ≤ d * (n / d) := Nat.mul_le_mul_left d h5
    omega

theorem flog2_le (n d c : ℕ) (hn : n ≠ 0) (hd : d ≠ 0) (h : n ≤ 2 ^ c * d) :
    TTBL.flog2 n d ≤ (c : ℤ) := by
  have hlog : Nat.log2 n < c + Nat.log2 d + 1 := by
    rw [Nat.log2_lt hn]
    calc n ≤ 2 ^ c * d := h
      _ < 2 ^ c * 2 ^ (Nat.log2 d + 1) :=
          mul_lt_mul_of_pos_left Nat.lt_log2_self (pow_pos (by norm_num) c)
      _ = 2 ^ (c + (Nat.log2 d + 1)) := (pow_add 2 c _).symm
      _ = 2 ^ (c + Nat.log2 d + 1) := by rw [Nat.add_assoc]
  rw [show TTBL.flog2 n d =
      (if TTBL.pow2Le ((TTBL.natLog2 n : ℤ) - (TTBL.natLog2 d : ℤ)) n d then
        (TTBL.natLog2 n : ℤ) - (TTBL.natLog2 d : ℤ)
       else (TTBL.natLog2 n : ℤ) - (TTBL.natLog2 d : ℤ) - 1) from rfl]
  rw [natLog2_eq, natLog2_eq]
  split_ifs with hp
  · by_cases hsign : (0:ℤ) ≤ (Nat.log2 n : ℤ) - (Nat.log2 d : ℤ)
    · have hle : d * 2 ^ ((Nat.log2 n : ℤ) - (Nat.log2 d : ℤ)).toNat ≤ n := by
        rw [TTBL.pow2Le, if_pos hsign] at hp
        exact of_decide_eq_true hp
      have h1 : d * 2 ^ ((Nat.log2 n : ℤ) - (Nat.log2 d : ℤ)).toNat ≤ d * 2 ^ c := by
        calc d * 2 ^ ((Nat.log2 n : ℤ) - (Nat.log2 d : ℤ)).toNat ≤ n := hle
          _ ≤ 2 ^ c * d := h
          _ = d * 2 ^ c := by ring
      have h2 : 2 ^ ((Nat.log2 n : ℤ) - (Nat.log2 d : ℤ)).toNat ≤ 2 ^ c :=
        Nat.le_of_mul_le_mul_left h1 (Nat.pos_of_ne_zero hd)
      have h3 : ((Nat.log2 n : ℤ) - (Nat.log2 d : ℤ)).toNat ≤ c :=
        (Nat.pow_le_pow_iff_right (by omega)).mp h2
      omega
    · omega
  · have hcast : (Nat.log2 n : ℤ) < (c : ℤ) + (Nat.log2 d : ℤ) + 1 := by
      exact_mod_cast hlog
    omega

theorem pyWinRate_bounds (w g : ℕ) (hg : 0 < g) (hw : w ≤ g) :
    0 ≤ TTBL.pyWinRate w g ∧ TTBL.pyWinRate w g ≤ 100 := by
  by_cases hw0 : w = 0
  · subst hw0
    simp [TTBL.pyWinRate]
  · have he1 : TTBL.flog2 w g ≤ 0 := by
      have := flog2_le w g 0 hw0 (by omega) (by simpa using hw)
      simpa using this
    have hp1_2 : (TTBL.flFrac w g).2 = TTBL.flog2 w g := rfl
    have hp1_1 : (TTBL.flFrac w g).1 =
      TTBL.scaleRne w g (52 - TTBL.flog2 w g) := rfl
    have hm1 : TTBL.scaleRne w g (52 - TTBL.flog2 w g) =
        TTBL.rneN (w * 2 ^ ((52 - TTBL.flog2 w g).toNat)) g := by
      rw [TTBL.scaleRne, if_pos (by omega : (0:ℤ) ≤ 52 - TTBL.flog2 w g)]
    have hm1le : (TTBL.flFrac w g).1 ≤ 2 ^ ((52 - TTBL.flog2 w g).toNat) := by
      rw [hp1_1, hm1]
      apply rneN_le _ _ _ hg
      calc w * 2 ^ ((52 - TTBL.flog2 w g).toNat)
          ≤ g * 2 ^ ((52 - TTBL.flog2 w g).toNat) := Nat.mul_le_mul_right _ hw
        _ = 2 ^ ((52 - TTBL.flog2 w g).toNat) * g := by ring
    have hmf : TTBL.mulFrac100 (TTBL.flFrac w g) =
        ((TTBL.flFrac w g).1 * 100, 2 ^ ((52 - TTBL.flog2 w g).toNat)) := by
      rw [TTBL.mulFrac100, hp1_2, if_neg (by omega : ¬ (0:ℤ) ≤ TTBL.flog2 w g - 52)]
    have hfun : TTBL.pyWinRate w g =
        (if (TTBL.flFrac w g).1 * 100 = 0 then 0
         else TTBL.truncDyadic (TTBL.flFrac ((TTBL.flFrac w g).1 * 100)
            (2 ^ ((52 - TTBL.flog2 w g).toNat)))) := by
      simp only [TTBL.pyWinRate, hmf]
      rw [if_neg hw0]
    rw [hfun]
    by_cases hn2 : (TTBL.flFrac w g).1 * 100 = 0
    · simp [hn2]
    · rw [if_neg hn2]
      have hd2 : (2 : ℕ) ^ ((52 - TTBL.flog2 w g).toNat) ≠ 0 := by positivity
      have hn2le : (TTBL.flFrac w g).1 * 100 ≤
          2 ^ 7 * 2 ^ ((52 - TTBL.flog2 w g).toNat) := by
        calc (TTBL.flFrac w g).1 * 100
            ≤ 2 ^ ((52 - TTBL.flog2 w g).toNat) * 100 := Nat.mul_le_mul_right _ hm1le
          _ ≤ 2 ^ ((52 - TTBL.flog2 w g).toNat) * 128 :=
              Nat.mul_le_mul_left _ (by omega)
          _ = 2 ^ 7 * 2 ^ ((52 - TTBL.flog2 w g).toNat) := by ring
      have he2 : TTBL.flog2 ((TTBL.flFrac w g).1 * 100)
          (2 ^ ((52 - TTBL.flog2 w g).toNat)) ≤ 7 :=
        flog2_le _ _ 7 hn2 hd2 hn2le
      have hq2 : (TTBL.flFrac ((TTBL.flFrac w g).1 * 100)
          (2 ^ ((52 - TTBL.flog2 w g).toNat))).2 =
          TTBL.flog2 ((TTBL.flFrac w g).1 * 100)
            (2 ^ ((52 - TTBL.flog2 w g).toNat)) := rfl
      have hq1 : (TTBL.flFrac ((TTBL.flFrac w g).1 * 100)
          (2 ^ ((52 - TTBL.flog2 w g).toNat))).1 =
          TTBL.scaleRne ((TTBL.flFrac w g).1 * 100)
            (2 ^ ((52 - TTBL.flog2 w g).toNat))
            (52 - TTBL.flog2 ((TTBL.flFrac w g).1 * 100)
              (2 ^ ((52 - TTBL.flog2 w g).toNat))) := rfl
      rw [TTBL.truncDyadic, hq2,
        if_neg (by omega : ¬ (0:ℤ) ≤ TTBL.flog2 ((TTBL.flFrac w g).1 * 100)
          (2 ^ ((52 - TTBL.flog2 w g).toNat)) - 52)]
      refine ⟨by positivity, ?_⟩
      have hm2 : TTBL.scaleRne ((TTBL.flFrac w g).1 * 100)
          (2 ^ ((52 - TTBL.flog2 w g).toNat))
          (52 - TTBL.flog2 ((TTBL.flFrac w g).1 * 100)
            (2 ^ ((52 - TTBL.flog2 w g).toNat))) =
          TTBL.rneN ((TTBL.flFrac w g).1 * 100 *
            2 ^ ((52 - TTBL.flog2 ((TTBL.flFrac w g).1 * 100)
              (2 ^ ((52 - TTBL.flog2 w g).toNat))).toNat))
            (2 ^ ((52 - TTBL.flog2 w g).toNat)) := by
        rw [TTBL.scaleRne, if_pos (by omega)]
      have hm2le : TTBL.rneN ((TTBL.flFrac w g).1 * 100 *
            2 ^ ((52 - TTBL.flog2 ((TTBL.flFrac w g).1 * 100)
              (2 ^ ((52 - TTBL.flog2 w g).toNat))).toNat))
            (2 ^ ((52 - TTBL.flog2 w g).toNat)) ≤
          100 * 2 ^ ((52 - TTBL.flog2 ((TTBL.flFrac w g).1 * 100)
              (2 ^ ((52 - TTBL.flog2 w g).toNat))).toNat) := by
        apply rneN_le _ _ _ (Nat.pos_of_ne_zero hd2)
        have hb : (TTBL.flFrac w g).1 * 100 ≤
            100 * 2 ^ ((52 - TTBL.flog2 w g).toNat) := by
          calc (TTBL.flFrac w g).1 * 100
              ≤ 2 ^ ((52 - TTBL.flog2 w g).toNat) * 100 := Nat.mul_le_mul_right _ hm1le
            _ = 100 * 2 ^ ((52 - TTBL.flog2 w g).toNat) := by ring
        calc (TTBL.flFrac w g).1 * 100 *
              2 ^ ((52 - TTBL.flog2 ((TTBL.flFrac w g).1 * 100)
                (2 ^ ((52 - TTBL.flog2 w g).toNat))).toNat)
            ≤ 100 * 2 ^ ((52 - TTBL.flog2 w g).toNat) *
              2 ^ ((52 - TTBL.flog2 ((TTBL.flFrac w g).1 * 100)
                (2 ^ ((52 - TTBL.flog2 w g).toNat))).toNat) :=
              Nat.mul_le_mul_right _ hb
          _ = 100 * 2 ^ ((52 - TTBL.flog2 ((TTBL.flFrac w g).1 * 100)
                (2 ^ ((52 - TTBL.flog2 w g).toNat))).toNat) *
              2 ^ ((52 - TTBL.flog2 w g).toNat) := by ring
      rw [hq1, hm2]
      have hdivle : TTBL.rneN ((TTBL.flFrac w g).1 * 100 *
            2 ^ ((52 - TTBL.flog2 ((TTBL.flFrac w g).1 * 100)
              (2 ^ ((52 - TTBL.flog2 w g).toNat))).toNat))
            (2 ^ ((52 - TTBL.flog2 w g).toNat)) /
          2 ^ ((52 - TTBL.flog2 ((TTBL.flFrac w g).1 * 100)
            (2 ^ ((52 - TTBL.flog2 w g).toNat))).toNat) ≤ 100 := by
        have hpos : 0 < (2:ℕ) ^ ((52 - TTBL.flog2 ((TTBL.flFrac w g).1 * 100)
            (2 ^ ((52 - TTBL.flog2 w g).toNat))).toNat) := by positivity
        have := Nat.div_le_div_right
          (c := 2 ^ ((52 - TTBL.flog2 ((TTBL.flFrac w g).1 * 100)
            (2 ^ ((52 - TTBL.flog2 w g).toNat))).toNat)) hm2le
        rwa [Nat.mul_div_cancel 100 hpos] at this
      exact_mod_cast hdivle

/-- C9 counterexample: at `wins = 29`, `gamesPlayed = 100` the code's
binary64 computation `int(wins / gamesPlayed * 100)` yields 28
(because the double nearest `0.29` times `100` is just below `29`),
while `floor(100 * wins / gamesPlayed) = 29`; so `winRate` does not
equal the claimed floor. -/
theorem winrate_floor_cex :
    TTBL.pyWinRate 29 100 = 28 ∧ (100 * 29) / 100 = 29 := by
  decide

theorem player_stats_final_sorted (stats : List (PyStr × TTBL.TStats)) :
    List.Pairwise (fun a b : TTBL.StatsOut => b.winRate ≤ a.winRate)
      (TTBL.player_stats_final stats) := by
  letI : IsTotal TTBL.StatsOut (fun a b => b.winRate ≤ a.winRate) :=
    ⟨fun a b => le_total b.winRate a.winRate⟩
  letI : IsTrans TTBL.StatsOut (fun a b => b.winRate ≤ a.winRate) :=
    ⟨fun a b c hab hbc => le_trans hbc hab⟩
  exact List.sorted_insertionSort _ _

/-- C9 (amended): every record of `player_stats_final` satisfies
`wins + losses = gamesPlayed`; `winRate` is `int(wins / gamesPlayed *
100)` computed in binary64 (zero when no games were played), which
always lies in `[0, 100]` but can fall below
`floor(100 * wins / gamesPlayed)` by one due to float rounding; and
the output list is sorted by `winRate` in non-increasing order. -/
theorem player_stats_final_invariants
    (fetch : PyStr → Except PyErr TTBL.TMatchPayload) (ids : List PyStr) :
    (∀ r ∈ TTBL.player_stats_final (TTBL.processMatches fetch ids ⟨[], []⟩).stats,
      r.wins + r.losses = r.gamesPlayed ∧ 0 ≤ r.winRate ∧ r.winRate ≤ 100)
    ∧ List.Pairwise (fun a b : TTBL.StatsOut => b.winRate ≤ a.winRate)
        (TTBL.player_stats_final (TTBL.processMatches fetch ids ⟨[], []⟩).stats) := by
  constructor
  · intro r hr
    have hinv : StatsInv (TTBL.processMatches fetch ids ⟨[], []⟩).stats :=
      statsInv_processMatches fetch ids ⟨[], []⟩ (by intro e he; simp at he)
    rw [TTBL.player_stats_final] at hr
    have hmem : r ∈ (TTBL.processMatches fetch ids ⟨[], []⟩).stats.map
        TTBL.finalizeOne :=
      (List.perm_insertionSort _ _).mem_iff.mp hr
    obtain ⟨e, he, rfl⟩ := List.mem_map.mp hmem
    have hinv_e := hinv e he
    refine ⟨hinv_e, ?_⟩
    simp only [TTBL.finalizeOne]
    by_cases hgp : 0 < e.2.gamesPlayed
    · rw [if_pos hgp]
      exact pyWinRate_bounds e.2.wins e.2.gamesPlayed hgp (by omega)
    · rw [if_neg hgp]
      norm_num
  · exact player_stats_final_sorted _

/-- Test fixture: one TTBL match payload with a single finished game
won by the home side. -/
def witPayload : TTBL.TMatchPayload :=
  { matchState := some "Finished".data
    homeTeamName := some "H".data
    awayTeamName := some "A".data
    timeStamp := 0
    gamedayName := some "Day 1".data
    games := [⟨some 1, some "Finished".data, some "Home".data,
      some ⟨some "h1".data, "Ho".data, "Me".data⟩, none,
      some ⟨some "a1".data, "Aw".data, "Ay".data⟩, none⟩] }

/-- Test fixture: a fetch environment serving only match `m1`. -/
def witFetch : PyStr → Except PyErr TTBL.TMatchPayload :=
  fun mid => if mid = "m1".data then .ok witPayload else .error .valueError

/-- Test fixture: the finalized record the run produces for player
`h1` (one game, one win, 100 percent). -/
def witRec : TTBL.StatsOut :=
  { id := "h1".data, name := "Ho Me".data, gamesPlayed := 1, wins := 1,
    losses := 0, lastMatch := "m1".data, winRate := 100 }

/-- C9 witness: the amended statement applied at a one-match run whose
home player ends at 1 win out of 1 game. -/
theorem player_stats_final_invariants_witness :
    witRec.wins + witRec.losses = witRec.gamesPlayed
    ∧ 0 ≤ witRec.winRate ∧ witRec.winRate ≤ 100 :=
  (player_stats_final_invariants witFetch ["m1".data]).1 witRec (by decide)
